import Mathlib

/-!
# minisnap: entry store, session registry and request handlers

A shallow embedding of `internal/content/store.go`, `internal/slug/generator.go`,
`internal/server/session.go` and the handlers of `internal/server/server.go`.

Modelling conventions.

* A Go string that is valid UTF-8 is a Lean string (Unicode text); a Go string
  that need not be is the list of its bytes (`Bytes`).  The content and the
  description handed to the store are arbitrary Go strings: `Store.CreateBytes`
  and `Store.UpdateBytes` take them as bytes, and `Store.Create` and
  `Store.Update` are their restrictions to valid UTF-8 (`CreateBytes_utf8`,
  `UpdateBytes_utf8`).
* A `time.Time` is the instant it denotes, in nanoseconds since the Unix epoch;
  `UTC()` does not change the instant, `Equal` is `=` and `After` is `>`.
  Instants are within the years that RFC 3339 writes, so every entry encodes.
* The content root is a flat directory of regular files on a file system that
  compares names byte for byte; files are named relative to the root.
  `Store.entryPath` is the file name of an identifier; `Store.fullPath`
  is the path `filepath.Join` makes of it, which is that file of the root when
  the identifier is one file name (`fullPath_plain`) and can be the file of
  another identifier otherwise (`fullPath_alias`).  A file is seen through
  `encoding/json`: it either decodes to an `Entry`, whose strings are valid
  UTF-8, or is rejected by the decoder.  The encoder replaces every byte that
  begins no valid encoding by U+FFFD (`jsonString`); on text the encoder
  followed by the decoder is the identity.
* Every call into the operating system can fail with an I/O error: the store
  operations take a `Faults` argument that says which calls fail; `healthy` is
  the environment in which none does, `posix` the one in which a call fails
  exactly when the operating system refuses its path (a NUL byte, a name longer
  than `NAME_MAX`).
* Randomness (`crypto/rand`) and the clock (`time.Now`) are explicit arguments.
* Mutating operations return the new directory next to their Go result.
* A handler maps the server state and what it reads of the request to the new
  state and what it does to the response writer; `http.Redirect` is recorded by
  its `url` argument and status, and `redirectLocation` is the `Location`
  header it writes for a target within the site.  Templates are taken to
  execute without error.
-/

namespace Minisnap

/-! ## Strings -/

/-- Code points for which `unicode.IsSpace` holds. -/
def isSpace (c : Char) : Bool :=
  (9 ≤ c.toNat && c.toNat ≤ 13) || c.toNat = 32 || c.toNat = 0x85 || c.toNat = 0xA0 ||
  c.toNat = 0x1680 || (0x2000 ≤ c.toNat && c.toNat ≤ 0x200A) || c.toNat = 0x2028 ||
  c.toNat = 0x2029 || c.toNat = 0x202F || c.toNat = 0x205F || c.toNat = 0x3000

/-- Go `strings.TrimSpace`: the string without leading and trailing white space. -/
def TrimSpace (s : String) : String :=
  String.mk ((s.data.dropWhile isSpace).rdropWhile isSpace)

/-- Go `strings.TrimRight s cutset` for a one-character cutset. -/
def TrimRight (s : String) (cut : Char) : String :=
  String.mk (s.data.rdropWhile (fun c => c = cut))

/-- Go `strings.ToLower` on ASCII text (the only text it is applied to here). -/
def lowerASCII (s : String) : String :=
  String.mk (s.data.map Char.toLower)

/-- Scan of `filepath.Ext`, from the last character backwards: `acc` is the part
of the name already passed. -/
def Ext.scan : List Char → List Char → List Char
  | [], _ => []
  | c :: rest, acc =>
    if c.toNat = 47 then []
    else if c.toNat = 46 then c :: acc
    else Ext.scan rest (c :: acc)

/-- Go `filepath.Ext`: the suffix beginning at the final dot of the final path
element, empty when there is no dot. -/
def Ext (path : String) : String :=
  String.mk (Ext.scan path.data.reverse [])

/-- Go `strings.TrimSuffix`. -/
def TrimSuffix (s suffix : String) : String :=
  if suffix.data <:+ s.data then String.mk (s.data.take (s.data.length - suffix.data.length))
  else s

/-! ## Identifier generator (`internal/slug/generator.go`) -/

/-- Alphabet of `base32.StdEncoding`. -/
def encodeStd : String := "ABCDEFGHIJKLMNOPQRSTUVWXYZ234567"

/-- One character of the standard base32 alphabet. -/
def base32Char (i : Nat) : Char :=
  encodeStd.data.getD i (Char.ofNat 65)

/-- Base32 (standard alphabet, no padding) of a 5-byte buffer: the 40 bits, most
significant first, cut into eight groups of five. -/
def base32Encode5 (buf : Fin 5 → Fin 256) : String :=
  let n : Nat := (buf 0).val * 2 ^ 32 + (buf 1).val * 2 ^ 24 + (buf 2).val * 2 ^ 16 +
    (buf 3).val * 2 ^ 8 + (buf 4).val
  String.mk ((List.range 8).map (fun i => base32Char (n / 32 ^ (7 - i) % 32)))

/-- Function `slug.New`: `r` is the outcome of `rand.Read` on the 5-byte buffer,
`none` when the random source fails. -/
def slug.New (r : Option (Fin 5 → Fin 256)) : String :=
  match r with
  | none => "entry"
  | some buf => lowerASCII (TrimRight (base32Encode5 buf) (Char.ofNat 61))

/-! ## Entries and the content directory -/

/-- An instant, in nanoseconds since the Unix epoch. -/
abbrev Time := Int

/-- Renderer kind, a string type as in the source. -/
abbrev RendererType := String

/-- Constant `RendererMarkdown`. -/
def RendererMarkdown : RendererType := "markdown"

/-- Constant `RendererHTML`. -/
def RendererHTML : RendererType := "html"

/-- One piece of content, as stored on disk. -/
structure Entry where
  Slug : String
  Renderer : RendererType
  Raw : String
  Description : String
  CreatedAt : Time
  UpdatedAt : Time
deriving DecidableEq, Repr

/-- Errors returned by the store. -/
inductive Error
  | entryNotFound
  | unsupportedRenderer (renderer : RendererType)
  | allocateSlug
  | readContentDir
  | openTempFile
  | encodeEntry
  | closeTempFile
  | renameTempFile
  | openEntry
  | decodeEntry
  | deleteEntry
deriving DecidableEq, Repr

/-- Content of a regular file as the JSON decoder sees it. -/
inductive FileData
  | json (entry : Entry)
  | malformed
deriving DecidableEq, Repr

/-- Lookup in an association list, the first binding of a key counting. -/
def assocGet {ν : Type} (k : String) : List (String × ν) → Option ν
  | [] => none
  | (k', v) :: rest => if k' = k then some v else assocGet k rest

/-- Removal of every binding of a key. -/
def assocDel {ν : Type} (k : String) : List (String × ν) → List (String × ν)
  | [] => []
  | (k', v) :: rest => if k' = k then assocDel k rest else (k', v) :: assocDel k rest

/-- Binding of a key, replacing the bindings it had. -/
def assocSet {ν : Type} (k : String) (v : ν) (m : List (String × ν)) : List (String × ν) :=
  (k, v) :: assocDel k m

/-- The content root: file names (relative to the root) with their contents. -/
structure FS where
  files : List (String × FileData)
deriving DecidableEq, Repr

/-- File of a given name, if there is one. -/
def FS.lookup (fs : FS) (name : String) : Option FileData :=
  assocGet name fs.files

/-- Directory after creating or replacing a file. -/
def FS.write (fs : FS) (name : String) (d : FileData) : FS :=
  ⟨assocSet name d fs.files⟩

/-- Directory after unlinking a name. -/
def FS.remove (fs : FS) (name : String) : FS :=
  ⟨assocDel name fs.files⟩

/-- The file names of the directory, each once, in increasing order. -/
def FS.names (fs : FS) : List String :=
  ((fs.files.map Prod.fst).dedup).insertionSort (fun a b => a ≤ b)

/-- Calls into the operating system and the JSON codec that can fail. -/
inductive Syscall
  | Stat (path : String)
  | Open (path : String)
  | Decode (path : String)
  | OpenFile (path : String)
  | Encode (path : String)
  | Close (path : String)
  | Rename (oldpath newpath : String)
  | Remove (path : String)
  | ReadDir
deriving DecidableEq, Repr

/-- Behaviour of the environment: which calls fail with an I/O error, and what a
failed write leaves in the file it was writing. -/
structure Faults where
  fails : Syscall → Bool
  torn : FileData

/-- The environment in which no call fails. -/
def healthy : Faults := ⟨fun _ => false, FileData.malformed⟩

/-- Outcome of `os.Stat` followed by `errors.Is(err, os.ErrNotExist)`. -/
def statNotExist (io : Faults) (fs : FS) (path : String) : Bool :=
  !io.fails (Syscall.Stat path) && (fs.lookup path).isNone

/-- Directory entry returned by `os.ReadDir`. -/
structure DirEntry where
  Name : String
  IsDir : Bool
deriving DecidableEq, Repr

/-- Go `os.ReadDir` on the content root: the entries sorted by file name. -/
def ReadDir (io : Faults) (fs : FS) : Except Error (List DirEntry) :=
  if io.fails Syscall.ReadDir then Except.error Error.readContentDir
  else Except.ok (fs.names.map (fun n => ⟨n, false⟩))

/-! ## The store (`internal/content/store.go`) -/

/-- Function `validateRenderer`. -/
def validateRenderer (renderer : RendererType) : Except Error Unit :=
  if renderer = RendererMarkdown ∨ renderer = RendererHTML then Except.ok ()
  else Except.error (Error.unsupportedRenderer renderer)

/-- Method `Store.entryPath`, relative to the content root: the file name
`fmt.Sprintf("%s.json", slugID)`, which `filepath.Join` places in the root when
the identifier is one file name (see `Store.fullPath`). -/
def Store.entryPath (slugID : String) : String :=
  slugID ++ ".json"

/-- Path of the temporary file `Store.persist` writes for an identifier. -/
def Store.tmpPath (slugID : String) : String :=
  Store.entryPath slugID ++ ".tmp"

/-- Method `Store.read`. -/
def Store.read (io : Faults) (fs : FS) (slugID : String) : Except Error Entry :=
  let path := Store.entryPath slugID
  if io.fails (Syscall.Open path) then Except.error Error.openEntry
  else
    match fs.lookup path with
    | none => Except.error Error.entryNotFound
    | some FileData.malformed => Except.error Error.decodeEntry
    | some (FileData.json entry) =>
      if io.fails (Syscall.Decode path) then Except.error Error.decodeEntry
      else Except.ok entry

/-- Points at which `Store.persist` can be interrupted before its rename step. -/
inductive Stage
  | opened
  | torn (d : FileData)
  | written
  | closed
deriving DecidableEq, Repr

/-- The directory when `Store.persist` has reached a stage and has not renamed:
the temporary file is created (or truncated), then holds part of the encoding,
then all of it. -/
def Store.persistUpTo (fs : FS) (entry : Entry) : Stage → FS
  | Stage.opened => fs.write (Store.tmpPath entry.Slug) FileData.malformed
  | Stage.torn d => fs.write (Store.tmpPath entry.Slug) d
  | Stage.written => fs.write (Store.tmpPath entry.Slug) (FileData.json entry)
  | Stage.closed => fs.write (Store.tmpPath entry.Slug) (FileData.json entry)

/-- Go `os.Rename` of one file of the root onto another name. -/
def FS.rename (fs : FS) (oldpath newpath : String) : Option FS :=
  match fs.lookup oldpath with
  | none => none
  | some d => some ((fs.remove oldpath).write newpath d)

/-- Method `Store.persist`. -/
def Store.persist (io : Faults) (fs : FS) (entry : Entry) : FS × Except Error Unit :=
  let path := Store.entryPath entry.Slug
  let tmpPath := path ++ ".tmp"
  if io.fails (Syscall.OpenFile tmpPath) then (fs, Except.error Error.openTempFile)
  else if io.fails (Syscall.Encode tmpPath) then
    (Store.persistUpTo fs entry (Stage.torn io.torn), Except.error Error.encodeEntry)
  else if io.fails (Syscall.Close tmpPath) then
    (Store.persistUpTo fs entry Stage.written, Except.error Error.closeTempFile)
  else if io.fails (Syscall.Rename tmpPath path) then
    (Store.persistUpTo fs entry Stage.closed, Except.error Error.renameTempFile)
  else
    match (Store.persistUpTo fs entry Stage.closed).rename tmpPath path with
    | none => (Store.persistUpTo fs entry Stage.closed, Except.error Error.renameTempFile)
    | some fs' => (fs', Except.ok ())

/-- The loop of `Store.Create`: with `n` attempts left, attempt number `i` draws a
candidate and keeps it when `os.Stat` reports that its file does not exist; the
result is the empty string when no attempt succeeds. -/
def Store.Create.allocate (io : Faults) (rand : Nat → Option (Fin 5 → Fin 256)) (fs : FS) :
    Nat → Nat → String
  | 0, _ => ""
  | n + 1, i =>
    let candidate := slug.New (rand i)
    if statNotExist io fs (Store.entryPath candidate) then candidate
    else Store.Create.allocate io rand fs n (i + 1)

/-- Method `Store.Create` on content and description that are valid UTF-8 (see
`Store.CreateBytes` for any Go strings).  `rand i` is the outcome of the random
read of the `i`-th call of `slug.New`; `now1` and `now2` are the readings of the
two calls of `time.Now`, in program order. -/
def Store.Create (io : Faults) (rand : Nat → Option (Fin 5 → Fin 256)) (now1 now2 : Time)
    (fs : FS) (renderer : RendererType) (raw description : String) : FS × Except Error Entry :=
  match validateRenderer renderer with
  | Except.error err => (fs, Except.error err)
  | Except.ok _ =>
    let description := TrimSpace description
    let slugID := Store.Create.allocate io rand fs 5 0
    if slugID = "" then (fs, Except.error Error.allocateSlug)
    else
      let entry : Entry :=
        { Slug := slugID, Renderer := renderer, Raw := raw, Description := description,
          CreatedAt := now1, UpdatedAt := now2 }
      match Store.persist io fs entry with
      | (fs', Except.error err) => (fs', Except.error err)
      | (fs', Except.ok _) => (fs', Except.ok entry)

/-- Method `Store.Update` on content and description that are valid UTF-8 (see
`Store.UpdateBytes` for any Go strings).  `now` is the reading of `time.Now`. -/
def Store.Update (io : Faults) (now : Time) (fs : FS) (slugID : String)
    (renderer : RendererType) (raw description : String) : FS × Except Error Entry :=
  match validateRenderer renderer with
  | Except.error err => (fs, Except.error err)
  | Except.ok _ =>
    let description := TrimSpace description
    match Store.read io fs slugID with
    | Except.error err => (fs, Except.error err)
    | Except.ok existing =>
      let existing : Entry :=
        { existing with Renderer := renderer, Raw := raw, Description := description,
                        UpdatedAt := now }
      match Store.persist io fs existing with
      | (fs', Except.error err) => (fs', Except.error err)
      | (fs', Except.ok _) => (fs', Except.ok existing)

/-- Method `Store.Get`. -/
def Store.Get (io : Faults) (fs : FS) (slugID : String) : Except Error Entry :=
  Store.read io fs slugID

/-- The comparison function `Store.List` passes to `sort.Slice`. -/
def entryLess (a b : Entry) : Bool :=
  if a.CreatedAt = b.CreatedAt then decide (a.Slug > b.Slug)
  else decide (a.CreatedAt > b.CreatedAt)

/-- Go `sort.Slice`, as an insertion sort driven by the same `less`. -/
def sortSlice {α : Type} (less : α → α → Bool) (l : List α) : List α :=
  l.insertionSort (fun a b => less b a = false)

/-- The loop of `Store.List` over the directory entries. -/
def Store.readAll (io : Faults) (fs : FS) : List DirEntry → Except Error (List Entry)
  | [] => Except.ok []
  | f :: rest =>
    if f.IsDir then Store.readAll io fs rest
    else if Ext f.Name ≠ ".json" then Store.readAll io fs rest
    else
      let slugID := TrimSuffix f.Name (Ext f.Name)
      match Store.read io fs slugID with
      | Except.error err => Except.error err
      | Except.ok entry =>
        match Store.readAll io fs rest with
        | Except.error err => Except.error err
        | Except.ok entries => Except.ok (entry :: entries)

/-- Method `Store.List`. -/
protected def Store.List (io : Faults) (fs : FS) : Except Error (List Entry) :=
  match ReadDir io fs with
  | Except.error err => Except.error err
  | Except.ok files =>
    match Store.readAll io fs files with
    | Except.error err => Except.error err
    | Except.ok entries => Except.ok (sortSlice entryLess entries)

/-- Method `Store.Delete`. -/
def Store.Delete (io : Faults) (fs : FS) (slugID : String) : FS × Except Error Unit :=
  let path := Store.entryPath slugID
  if io.fails (Syscall.Remove path) then (fs, Except.error Error.deleteEntry)
  else
    match fs.lookup path with
    | none => (fs, Except.error Error.entryNotFound)
    | some _ => (fs.remove path, Except.ok ())

/-- Identifiers that have a record: the names of the directory with extension
`.json`, without that extension. -/
def Store.slugs (fs : FS) : List String :=
  (fs.names.filter (fun n => Ext n = ".json")).map (fun n => TrimSuffix n ".json")

/-- Every record of the directory is readable: `Get` succeeds on each identifier
that has a file. -/
def Store.allReadable (fs : FS) : Prop :=
  ∀ s, (fs.lookup (Store.entryPath s)).isSome → ∃ e, Store.Get healthy fs s = Except.ok e

/-! ## Session registry (`internal/server/session.go`) -/

/-- Constant `sessionTTL`: 24 hours, in nanoseconds. -/
def sessionTTL : Int := 24 * (60 * 60 * 1000000000)

/-- A registered session. -/
structure session where
  expires : Time
deriving DecidableEq, Repr

/-- The registry: the `sessions` map from token to session. -/
structure sessionStore where
  sessions : List (String × session)
deriving DecidableEq, Repr

/-- Session of a token, if it is registered. -/
def sessionStore.get (s : sessionStore) (token : String) : Option session :=
  assocGet token s.sessions

/-- Alphabet of `base64.RawURLEncoding`. -/
def encodeURL : String := "ABCDEFGHIJKLMNOPQRSTUVWXYZabcdefghijklmnopqrstuvwxyz0123456789-_"

/-- One character of the URL-safe base64 alphabet. -/
def base64Char (i : Nat) : Char :=
  encodeURL.data.getD i (Char.ofNat 65)

/-- Base64 without padding: three bytes give four characters, a remainder of two
bytes three, of one byte two. -/
def base64Raw : List (Fin 256) → List Char
  | a :: b :: c :: rest =>
    let n : Nat := a.val * 65536 + b.val * 256 + c.val
    base64Char (n / 262144) :: base64Char (n / 4096 % 64) :: base64Char (n / 64 % 64) ::
      base64Char (n % 64) :: base64Raw rest
  | [a, b] =>
    let n : Nat := a.val * 65536 + b.val * 256
    [base64Char (n / 262144), base64Char (n / 4096 % 64), base64Char (n / 64 % 64)]
  | [a] =>
    let n : Nat := a.val * 65536
    [base64Char (n / 262144), base64Char (n / 4096 % 64)]
  | [] => []

/-- Function `newToken`: `r` is the outcome of `rand.Read` on the 32-byte buffer. -/
def newToken (r : Option (Fin 32 → Fin 256)) : String :=
  match r with
  | none => "fallback-token"
  | some buf => String.mk (base64Raw (List.ofFn buf))

/-- Method `sessionStore.Create`; `now` is the reading of `time.Now`. -/
def sessionStore.Create (s : sessionStore) (r : Option (Fin 32 → Fin 256)) (now : Time) :
    sessionStore × String × Time :=
  let token := newToken r
  let expires := now + sessionTTL
  (⟨assocSet token ⟨expires⟩ s.sessions⟩, token, expires)

/-- Method `sessionStore.Remove`. -/
def sessionStore.Remove (s : sessionStore) (token : String) : sessionStore :=
  if token = "" then s
  else ⟨assocDel token s.sessions⟩

/-- Method `sessionStore.Validate`; `now` is the reading of `time.Now`. -/
def sessionStore.Validate (s : sessionStore) (token : String) (now : Time) :
    sessionStore × Bool :=
  if token = "" then (s, false)
  else
    match s.get token with
    | none => (s, false)
    | some sess =>
      if now > sess.expires then (s.Remove token, false)
      else (s, true)

/-! ## More strings -/

/-- Go `strings.HasPrefix`. -/
def HasPrefix (s pre : String) : Bool :=
  decide (pre.data <+: s.data)

/-- Go `strings.Contains`: on valid UTF-8 a byte substring is a substring of code
points. -/
def Contains (s substr : String) : Bool :=
  decide (substr.data <:+: s.data)

/-- Go `strings.ToLower`: every code point mapped by `unicode.ToLower`, which is
the argument `lower` (the case tables of the Unicode database). -/
def ToLower (lower : Char → Char) (s : String) : String :=
  String.mk (s.data.map lower)

/-- Scan of `strings.Fields`: `cur` is the field being read, empty outside a
field; white space ends it. -/
def Fields.scan : List Char → List Char → List String
  | [], cur => if cur = [] then [] else [String.mk cur]
  | c :: cs, cur =>
    if isSpace c then
      (if cur = [] then Fields.scan cs [] else String.mk cur :: Fields.scan cs [])
    else Fields.scan cs (cur ++ [c])

/-- Go `strings.Fields`: the maximal runs of characters that are not white space. -/
def Fields (s : String) : List String :=
  Fields.scan s.data []

/-- Go `strings.Join`. -/
def Join : List String → String → String
  | [], _ => ""
  | [e], _ => e
  | e :: rest, sep => e ++ sep ++ Join rest sep

/-- UTF-8 encoding of a code point. -/
def utf8Bytes (c : Char) : List Nat :=
  let n := c.toNat
  if n < 0x80 then [n]
  else if n < 0x800 then [0xC0 + n / 64, 0x80 + n % 64]
  else if n < 0x10000 then [0xE0 + n / 4096, 0x80 + n / 64 % 64, 0x80 + n % 64]
  else [0xF0 + n / 262144, 0x80 + n / 4096 % 64, 0x80 + n / 64 % 64, 0x80 + n % 64]

/-- Digits of `upperhex` in `net/url`. -/
def upperhex : String := "0123456789ABCDEF"

/-- Function `shouldEscape` of `net/url` in query-component mode: everything but
letters, digits and `-`, `_`, `.`, `~`. -/
def shouldEscape (b : Nat) : Bool :=
  !((48 ≤ b && b ≤ 57) || (65 ≤ b && b ≤ 90) || (97 ≤ b && b ≤ 122) ||
    b = 45 || b = 95 || b = 46 || b = 126)

/-- Escape of one byte by `url.QueryEscape`: a space becomes `+`, every other
byte that must be escaped becomes `%XX`. -/
def escapeByte (b : Nat) : List Char :=
  if b = 32 then [Char.ofNat 43]
  else if shouldEscape b then
    [Char.ofNat 37, upperhex.data.getD (b / 16) (Char.ofNat 48),
      upperhex.data.getD (b % 16) (Char.ofNat 48)]
  else [Char.ofNat b]

/-- Go `url.QueryEscape`. -/
def QueryEscape (s : String) : String :=
  String.mk (s.data.flatMap (fun c => (utf8Bytes c).flatMap escapeByte))

/-- Function `unhex` of `net/url`: the value of a hexadecimal digit. -/
def unhex (c : Char) : Option Nat :=
  let n := c.toNat
  if 48 ≤ n ∧ n ≤ 57 then some (n - 48)
  else if 97 ≤ n ∧ n ≤ 102 then some (n - 97 + 10)
  else if 65 ≤ n ∧ n ≤ 70 then some (n - 65 + 10)
  else none

/-- Go `url.QueryUnescape`, as the bytes of its result: `%XX` gives the byte `XX`,
`+` a space, any other character its own bytes; `none` is the escape error. -/
def QueryUnescape : List Char → Option (List Nat)
  | [] => some []
  | c :: rest =>
    if c.toNat = 37 then
      match rest with
      | h1 :: h2 :: rest' =>
        match unhex h1, unhex h2, QueryUnescape rest' with
        | some a, some b, some bs => some ((a * 16 + b) :: bs)
        | _, _, _ => none
      | _ => none
    else if c.toNat = 43 then (QueryUnescape rest).map (fun bs => 32 :: bs)
    else (QueryUnescape rest).map (fun bs => utf8Bytes c ++ bs)

/-- Every run of white space replaced by one space character; `inRun` says that
the previous character was white space. -/
def collapseRuns : Bool → List Char → List Char
  | _, [] => []
  | inRun, c :: cs =>
    if isSpace c then (if inRun then collapseRuns true cs else Char.ofNat 32 :: collapseRuns true cs)
    else c :: collapseRuns false cs

/-- The text with every run of white space collapsed to one space and leading and
trailing white space removed, as the specification words it. -/
def collapseSpaces (raw : String) : String :=
  TrimSpace (String.mk (collapseRuns false raw.data))

/-- Case-insensitive containment: the lowered text contains the lowered term. -/
def containsFold (lower : Char → Char) (text term : String) : Bool :=
  Contains (ToLower lower text) (ToLower lower term)

/-- An entry matches a search term when its identifier, its raw content or its
description contains the term case-insensitively. -/
def matchesTerm (lower : Char → Char) (term : String) (entry : Entry) : Bool :=
  containsFold lower entry.Slug term || containsFold lower entry.Raw term ||
    containsFold lower entry.Description term

/-! ## Go strings as bytes -/

/-- A Go string as its bytes. -/
abbrev Bytes := List Nat

/-- Whether a byte is a continuation byte of UTF-8. -/
def isCont (b : Nat) : Bool := 0x80 ≤ b && b ≤ 0xBF

/-- Two bytes that `utf8.DecodeRune` accepts as an encoding. -/
def accept2 (b0 b1 : Nat) : Bool := 0xC2 ≤ b0 && b0 ≤ 0xDF && isCont b1

/-- Three bytes that `utf8.DecodeRune` accepts as an encoding. -/
def accept3 (b0 b1 b2 : Nat) : Bool :=
  ((b0 = 0xE0 && 0xA0 ≤ b1 && b1 ≤ 0xBF) ||
   (((0xE1 ≤ b0 && b0 ≤ 0xEC) || b0 = 0xEE || b0 = 0xEF) && isCont b1) ||
   (b0 = 0xED && 0x80 ≤ b1 && b1 ≤ 0x9F)) && isCont b2

/-- Four bytes that `utf8.DecodeRune` accepts as an encoding. -/
def accept4 (b0 b1 b2 b3 : Nat) : Bool :=
  ((b0 = 0xF0 && 0x90 ≤ b1 && b1 ≤ 0xBF) ||
   (0xF1 ≤ b0 && b0 ≤ 0xF3 && isCont b1) ||
   (b0 = 0xF4 && 0x80 ≤ b1 && b1 ≤ 0x8F)) && isCont b2 && isCont b3

/-- Go `utf8.DecodeRune` on a non-empty string: the code point at its start and
the width of its encoding, or `none` for `RuneError` of width 1. -/
def DecodeRune : List Nat → Option (Char × Nat)
  | [] => none
  | b0 :: rest =>
    if b0 < 0x80 then some (Char.ofNat b0, 1)
    else
      match rest with
      | [] => none
      | b1 :: rest1 =>
        if accept2 b0 b1 then some (Char.ofNat (b0 % 32 * 64 + b1 % 64), 2)
        else
          match rest1 with
          | [] => none
          | b2 :: rest2 =>
            if accept3 b0 b1 b2 then
              some (Char.ofNat (b0 % 16 * 4096 + b1 % 64 * 64 + b2 % 64), 3)
            else
              match rest2 with
              | [] => none
              | b3 :: _ =>
                if accept4 b0 b1 b2 b3 then
                  some (Char.ofNat (b0 % 8 * 262144 + b1 % 64 * 4096 + b2 % 64 * 64 + b3 % 64), 4)
                else none

/-- What ranging over a Go string yields at one position: a code point with a
valid encoding, or a byte that begins none (`RuneError` of width 1). -/
inductive Rune
  | valid (c : Char)
  | invalid (b : Nat)
deriving DecidableEq, Repr

/-- The string cut into runes from its start, as `utf8.DecodeRune` does
repeatedly; `skip` is the number of bytes left of the encoding being passed. -/
def decodeRunes.go : Nat → List Nat → List Rune
  | _, [] => []
  | skip + 1, _ :: rest => decodeRunes.go skip rest
  | 0, b0 :: rest =>
    match DecodeRune (b0 :: rest) with
    | some (c, size) => Rune.valid c :: decodeRunes.go (size - 1) rest
    | none => Rune.invalid b0 :: decodeRunes.go 0 rest

/-- The runes of a Go string. -/
def decodeRunes (s : Bytes) : List Rune := decodeRunes.go 0 s

/-- The bytes of a rune. -/
def Rune.bytes : Rune → Bytes
  | Rune.valid c => utf8Bytes c
  | Rune.invalid b => [b]

/-- The code point `utf8.DecodeRune` reports: `RuneError` (U+FFFD) for a byte
that begins no valid encoding. -/
def Rune.char : Rune → Char
  | Rune.valid c => c
  | Rune.invalid _ => Char.ofNat 0xFFFD

/-- The UTF-8 bytes of a text. -/
def utf8 (s : String) : Bytes := s.data.flatMap utf8Bytes

/-- A Go string after `encoding/json` has written it and read it back: the
encoder replaces every byte that begins no valid encoding by U+FFFD. -/
def jsonString (s : Bytes) : String := String.mk ((decodeRunes s).map Rune.char)

/-- Go `strings.TrimSpace` on any Go string: leading and trailing white-space
code points removed; a byte that begins no valid encoding is not white space. -/
def TrimSpaceBytes (s : Bytes) : Bytes :=
  (((decodeRunes s).dropWhile (fun r => isSpace r.char)).rdropWhile
    (fun r => isSpace r.char)).flatMap Rune.bytes

/-- An `Entry` value in memory, as `Store.Create` and `Store.Update` build and
return it: `Raw` and `Description` are the Go strings given, which need not be
valid UTF-8.  `Slug` comes from `slug.New` or from a decoded file and `Renderer`
has passed `validateRenderer`, so both are text. -/
structure EntryBytes where
  Slug : String
  Renderer : RendererType
  Raw : Bytes
  Description : Bytes
  CreatedAt : Time
  UpdatedAt : Time
deriving DecidableEq, Repr

/-- The entry that the JSON decoder reads from the encoding of an entry in
memory. -/
def EntryBytes.decoded (e : EntryBytes) : Entry :=
  { Slug := e.Slug, Renderer := e.Renderer, Raw := jsonString e.Raw,
    Description := jsonString e.Description, CreatedAt := e.CreatedAt, UpdatedAt := e.UpdatedAt }

/-- An entry of text as an entry in memory. -/
def Entry.bytes (e : Entry) : EntryBytes :=
  { Slug := e.Slug, Renderer := e.Renderer, Raw := utf8 e.Raw,
    Description := utf8 e.Description, CreatedAt := e.CreatedAt, UpdatedAt := e.UpdatedAt }

/-- Method `Store.Create` with any Go strings as content and description.
`Store.persist` encodes the entry, so the file it writes decodes to
`entry.decoded`. -/
def Store.CreateBytes (io : Faults) (rand : Nat → Option (Fin 5 → Fin 256)) (now1 now2 : Time)
    (fs : FS) (renderer : RendererType) (raw description : Bytes) :
    FS × Except Error EntryBytes :=
  match validateRenderer renderer with
  | Except.error err => (fs, Except.error err)
  | Except.ok _ =>
    let description := TrimSpaceBytes description
    let slugID := Store.Create.allocate io rand fs 5 0
    if slugID = "" then (fs, Except.error Error.allocateSlug)
    else
      let entry : EntryBytes :=
        { Slug := slugID, Renderer := renderer, Raw := raw, Description := description,
          CreatedAt := now1, UpdatedAt := now2 }
      match Store.persist io fs entry.decoded with
      | (fs', Except.error err) => (fs', Except.error err)
      | (fs', Except.ok _) => (fs', Except.ok entry)

/-- Method `Store.Update` with any Go strings as content and description. -/
def Store.UpdateBytes (io : Faults) (now : Time) (fs : FS) (slugID : String)
    (renderer : RendererType) (raw description : Bytes) : FS × Except Error EntryBytes :=
  match validateRenderer renderer with
  | Except.error err => (fs, Except.error err)
  | Except.ok _ =>
    let description := TrimSpaceBytes description
    match Store.read io fs slugID with
    | Except.error err => (fs, Except.error err)
    | Except.ok existing =>
      let existing : EntryBytes :=
        { Slug := existing.Slug, Renderer := renderer, Raw := raw, Description := description,
          CreatedAt := existing.CreatedAt, UpdatedAt := now }
      match Store.persist io fs existing.decoded with
      | (fs', Except.error err) => (fs', Except.error err)
      | (fs', Except.ok _) => (fs', Except.ok existing)

/-! ## Paths and the operating system -/

/-- Go `strings.Split s "/"` on the characters of a path: `cur` is the element
being read. -/
def splitSlash : List Char → List Char → List (List Char)
  | [], cur => [cur]
  | c :: cs, cur => if c.toNat = 47 then cur :: splitSlash cs [] else splitSlash cs (cur ++ [c])

/-- Go `strings.Join elems "/"` on the characters of path elements. -/
def joinSlash : List (List Char) → List Char
  | [] => []
  | [e] => e
  | e :: rest => e ++ Char.ofNat 47 :: joinSlash rest

/-- One element in the pass of `path.Clean`; `stack` holds the elements kept so
far, the last one first.  An empty element and `.` are dropped; `..` removes the
element before it, is dropped at the root of a rooted path, and is kept at the
start of a path that is not rooted; any other element is kept. -/
def Clean.step (rooted : Bool) (stack : List (List Char)) (el : List Char) : List (List Char) :=
  if el = [] ∨ el = [Char.ofNat 46] then stack
  else if el = [Char.ofNat 46, Char.ofNat 46] then
    match stack with
    | [] => if rooted then [] else [el]
    | top :: below => if top = [Char.ofNat 46, Char.ofNat 46] then el :: stack else below
  else el :: stack

/-- The elements `path.Clean` keeps of a path, in order. -/
def Clean.kept (path : String) : List (List Char) :=
  ((splitSlash path.data []).foldl
    (Clean.step (decide (path.data.head? = some (Char.ofNat 47)))) []).reverse

/-- Go `path.Clean`, on a POSIX system also `filepath.Clean`: the shortest path
equivalent to `path` by lexical processing. -/
def Clean (path : String) : String :=
  if path = "" then "."
  else if path.data.head? = some (Char.ofNat 47) then
    String.mk (Char.ofNat 47 :: joinSlash (Clean.kept path))
  else if Clean.kept path = [] then "."
  else String.mk (joinSlash (Clean.kept path))

/-- Go `filepath.Join` of two elements on a POSIX system. -/
def JoinPath (dir name : String) : String :=
  if dir ≠ "" then Clean (dir ++ "/" ++ name)
  else if name ≠ "" then Clean name
  else ""

/-- Method `Store.entryPath` with the content root `root` of the store:
`filepath.Join(s.root, fmt.Sprintf("%s.json", slugID))`. -/
def Store.fullPath (root slugID : String) : String :=
  JoinPath root (Store.entryPath slugID)

/-- Constant `NAME_MAX` of the operating system: the longest file name, in bytes. -/
def nameMax : Nat := 255

/-- Paths that the operating system refuses whatever the directory holds: one
with a NUL byte (`EINVAL`) or with an element longer than `NAME_MAX` bytes
(`ENAMETOOLONG`).  Neither error is `os.ErrNotExist`.  The path of the content
root is taken to be short enough for `PATH_MAX` never to be reached. -/
def osRejects (path : String) : Bool :=
  path.data.any (fun c => c.toNat = 0) ||
    (splitSlash path.data []).any (fun el => nameMax < (el.flatMap utf8Bytes).length)

/-- The paths a call is made on. -/
def Syscall.paths : Syscall → List String
  | Syscall.Stat p => [p]
  | Syscall.Open p => [p]
  | Syscall.Decode _ => []
  | Syscall.OpenFile p => [p]
  | Syscall.Encode _ => []
  | Syscall.Close _ => []
  | Syscall.Rename o n => [o, n]
  | Syscall.Remove p => [p]
  | Syscall.ReadDir => []

/-- The environment without I/O faults on a POSIX system: a call fails exactly
when the operating system refuses one of its paths. -/
def posix : Faults := ⟨fun c => c.paths.any osRejects, FileData.malformed⟩

/-- An identifier that is one file name: no path separator, no NUL byte, and its
file name `<identifier>.json` within `NAME_MAX`. -/
def plainName (slugID : String) : Prop :=
  (∀ c ∈ slugID.data, c.toNat ≠ 47 ∧ c.toNat ≠ 0) ∧
    (utf8 (Store.entryPath slugID)).length ≤ nameMax

instance plainName.decidable (slugID : String) : Decidable (plainName slugID) := by
  unfold plainName
  infer_instance

/-- An identifier that is one file name and whose temporary file name
`<identifier>.json.tmp` is within `NAME_MAX` as well. -/
def writableName (slugID : String) : Prop :=
  (∀ c ∈ slugID.data, c.toNat ≠ 47 ∧ c.toNat ≠ 0) ∧
    (utf8 (Store.tmpPath slugID)).length ≤ nameMax

instance writableName.decidable (slugID : String) : Decidable (writableName slugID) := by
  unfold writableName
  infer_instance

/-- An identifier of 300 bytes, three hundred times the letter `a`. -/
def longName : String := String.mk (List.replicate 300 (Char.ofNat 97))

/-- An identifier of 248 bytes: its file name has 253 bytes, the name of its
temporary file 257. -/
def longishName : String := String.mk (List.replicate 248 (Char.ofNat 97))

/-! ## Redirect targets (`http.Redirect`) -/

/-- Digits of `strconv.AppendInt` in base 16. -/
def lowerhex : String := "0123456789abcdef"

/-- Function `hexEscapeNonASCII` of `net/http`: every byte from 0x80 on is written
as `%` and its two hexadecimal digits. -/
def hexEscapeNonASCII (s : String) : String :=
  String.mk (s.data.flatMap (fun c =>
    if c.toNat < 0x80 then [c]
    else (utf8Bytes c).flatMap (fun b =>
      [Char.ofNat 37, lowerhex.data.getD (b / 16) (Char.ofNat 48),
        lowerhex.data.getD (b % 16) (Char.ofNat 48)])))

/-- A redirect target within the site that `url.Parse` accepts whatever its
escapes: it begins with one `/` (so it has neither scheme nor host), has no
control character and no `#`, and has no `%` before its first `?`. -/
def localTarget (url : String) : Bool :=
  HasPrefix url "/" && !HasPrefix url "//" &&
    url.data.all (fun c => 0x20 ≤ c.toNat && c.toNat ≠ 0x7F && c.toNat ≠ 35) &&
    (url.data.takeWhile (fun c => c.toNat ≠ 63)).all (fun c => c.toNat ≠ 37)

/-- The cleaning block of `http.Redirect` for a `url` without scheme and host that
begins with `/`: the part before the first `?` goes through `path.Clean`, a final
`/` is kept, and the query is put back. -/
def Redirect.clean (url : String) : String :=
  let path := url.data.takeWhile (fun c => c.toNat ≠ 63)
  let query := url.data.dropWhile (fun c => c.toNat ≠ 63)
  let cleaned := (Clean (String.mk path)).data
  let cleaned :=
    if path.getLast? = some (Char.ofNat 47) ∧ cleaned.getLast? ≠ some (Char.ofNat 47) then
      cleaned ++ [Char.ofNat 47]
    else cleaned
  String.mk (cleaned ++ query)

/-- The `Location` header that `http.Redirect` writes for a local target: the
cleaned `url` with its non-ASCII bytes escaped.  For other `url` arguments
(`none`) the header depends on the authority and escape rules of `url.Parse`,
which are not part of this development. -/
def redirectLocation (url : String) : Option String :=
  if localTarget url then some (hexEscapeNonASCII (Redirect.clean url)) else none

/-- A path element that `path.Clean` keeps and `http.Redirect` leaves as it is:
not empty, not `.` and not `..`, of ASCII characters other than `/`, `?`, `%`,
`#` and control characters. -/
def isName (el : List Char) : Bool :=
  el ≠ [] && el ≠ [Char.ofNat 46] && el ≠ [Char.ofNat 46, Char.ofNat 46] &&
    el.all (fun c => 0x20 ≤ c.toNat && c.toNat < 0x7F && c.toNat ≠ 47 && c.toNat ≠ 63 &&
      c.toNat ≠ 37 && c.toNat ≠ 35)

/-- A redirect target that is a clean path: `/` followed by one or more names
separated by single `/`. -/
def cleanTarget (url : String) : Bool :=
  match url.data with
  | [] => false
  | c :: rest => c.toNat = 47 && (splitSlash rest []).all isName

/-! ## The HTTP server (`internal/server/server.go`) -/

/-- Constant `sessionCookieName`. -/
def sessionCookieName : String := "minisnap_session"

/-- Configuration of the server (`internal/config`). -/
structure Config where
  BindAddr : String
  AdminPassword : String
  ContentDir : String
deriving DecidableEq, Repr

/-- State behind a `Server`: its configuration, the content directory behind its
store and its session registry. -/
structure Server where
  cfg : Config
  store : FS
  sessions : sessionStore
deriving DecidableEq, Repr

/-- The parts of `url.URL` that `RequestURI` reads. -/
structure URL where
  EscapedPath : String
  RawQuery : String
  ForceQuery : Bool
deriving DecidableEq, Repr

/-- Go `(*url.URL).RequestURI` for a request without opaque part: the encoded
path, then `?` and the query when there is one. -/
def URL.RequestURI (u : URL) : String :=
  let result := if u.EscapedPath = "" then "/" else u.EscapedPath
  if u.ForceQuery ∨ u.RawQuery ≠ "" then result ++ "?" ++ u.RawQuery else result

/-- What the handlers read of an `http.Request`.  `ParseFormErr` says whether
`ParseForm` returns an error; `Form` holds the pairs that did decode, which
`ParseForm` stores even when it reports an error; `Query` is `r.URL.Query()`;
`PathSlug` is `r.PathValue("slug")`; `Cookies` are the name and value of the
cookies sent. -/
structure Request where
  URL : URL
  PathSlug : String
  Query : List (String × String)
  ParseFormErr : Bool
  Form : List (String × String)
  Cookies : List (String × String)
deriving DecidableEq, Repr

/-- Go `(*http.Request).FormValue` after `ParseForm`: the first value of the key,
the empty string when there is none. -/
def Request.FormValue (r : Request) (key : String) : String :=
  (assocGet key r.Form).getD ""

/-- Go `(*http.Request).Cookie`: the value of the first cookie of that name. -/
def Request.Cookie (r : Request) (name : String) : Option String :=
  assocGet name r.Cookies

/-- An `http.Cookie` as the server sets it. -/
structure Cookie where
  Name : String
  Value : String
  Path : String
  HttpOnly : Bool
  SameSiteStrict : Bool
  Expires : Time
deriving DecidableEq, Repr

/-- Type `entryListItem`. -/
structure entryListItem where
  Slug : String
  Renderer : RendererType
  Description : String
  PublishedAt : String
  UpdatedAt : String
  WasUpdated : Bool
deriving DecidableEq, Repr

/-- Type `libraryTemplateData`. -/
structure libraryTemplateData where
  Title : String
  Entries : List entryListItem
  SearchTerm : String
  TotalEntries : Nat
  FilteredCount : Nat
  HasFilter : Bool
deriving DecidableEq, Repr

/-- Data handed to a template, by template. -/
inductive View
  | login (title error next : String)
  | saved (title viewURL editURL publishedAt updatedAt : String) (wasUpdated : Bool)
  | library (data : libraryTemplateData)
deriving DecidableEq, Repr

/-- What a handler writes as the body.  `redirect` is what `http.Redirect`
writes: a short HTML link to the target when the request is a GET, nothing
otherwise. -/
inductive Body
  | empty
  | text (message : String)
  | errorText (err : Error)
  | template (name : String) (data : View)
  | redirect
deriving DecidableEq, Repr

/-- What a handler does to its `http.ResponseWriter`: the status, the `url`
argument it passes to `http.Redirect` if it redirects, the cookies it sets with
`http.SetCookie`, and the body. -/
structure Response where
  Status : Nat
  RedirectURL : Option String
  Cookies : List Cookie
  Body : Body
deriving DecidableEq, Repr

/-- The `Location` header of a response that redirects to a target within the
site (see `redirectLocation`); `none` when the handler does not redirect or the
target is of another kind. -/
def Response.Location (resp : Response) : Option String :=
  resp.RedirectURL.bind redirectLocation

/-- Everything a request reads from outside the server state: I/O faults, the
random reads of `slug.New` and `newToken`, the clock reading of each call of
`time.Now` (in `sessionStore.Validate`, in `sessionStore.Create`, and the two of
the store), the local rendering `t.Local().Format("2006-01-02 15:04")` and
`unicode.ToLower`.  Templates are taken to execute without error. -/
structure Env where
  faults : Faults
  rand : Nat → Option (Fin 5 → Fin 256)
  tokenRand : Option (Fin 32 → Fin 256)
  validateNow : Time
  sessionNow : Time
  now1 : Time
  now2 : Time
  formatLocal : Time → String
  lower : Char → Char

/-- A handler: from the environment, the server state and the request to the new
server state and the response. -/
abbrev HandlerFunc := Env → Server → Request → Server × Response

/-- Method `Server.renderError`. -/
def renderError (status : Nat) (message : Body) : Response :=
  { Status := status, RedirectURL := none, Cookies := [], Body := message }

/-- Method `Server.renderTemplate`, the template executing without error. -/
def renderTemplate (name : String) (data : View) : Response :=
  { Status := 200, RedirectURL := none, Cookies := [], Body := Body.template name data }

/-- Go `http.Redirect` with the given `url` and status code: the call is recorded
with its arguments; the `Location` header it writes is `redirectLocation url`. -/
def Redirect (url : String) (code : Nat) : Response :=
  { Status := code, RedirectURL := some url, Cookies := [], Body := Body.redirect }

/-- Go `http.SetCookie` before the response is written. -/
def SetCookie (c : Cookie) (resp : Response) : Response :=
  { resp with Cookies := c :: resp.Cookies }

/-- The zero `time.Time`: January 1 of year 1, 00:00 UTC. -/
def zeroTime : Time := -62135596800 * 1000000000

/-- Go `time.Time.IsZero`. -/
def IsZero (t : Time) : Bool := decide (t = zeroTime)

/-- Function `formatTime`. -/
def formatTime (env : Env) (t : Time) : String :=
  if IsZero t then "" else env.formatLocal t

/-- Function `summarize`. -/
def summarize (raw : String) (limit : Nat) : String :=
  let trimmed := TrimSpace raw
  if trimmed = "" then ""
  else
    let collapsed := Join (Fields trimmed) " "
    let runes := collapsed.data
    if runes.length ≤ limit then collapsed
    else String.mk (runes.take limit) ++ "…"

/-- The item `Server.buildEntryList` appends for an entry it keeps. -/
def buildEntryList.item (env : Env) (entry : Entry) : entryListItem :=
  let description := TrimSpace entry.Description
  let description := if description = "" then summarize entry.Raw 140 else description
  { Slug := entry.Slug, Renderer := entry.Renderer, Description := description,
    PublishedAt := formatTime env entry.CreatedAt,
    UpdatedAt := formatTime env entry.UpdatedAt,
    WasUpdated := !IsZero entry.UpdatedAt && !decide (entry.UpdatedAt = entry.CreatedAt) }

/-- The loop of `Server.buildEntryList` over the listed entries, `search` being
the lowered, trimmed search term. -/
def buildEntryList.loop (env : Env) (search : String) : List Entry → List entryListItem
  | [] => []
  | entry :: rest =>
    if search ≠ "" ∧
        (!Contains (ToLower env.lower entry.Slug) search &&
          !Contains (ToLower env.lower entry.Raw) search &&
          !Contains (ToLower env.lower entry.Description) search) = true then
      buildEntryList.loop env search rest
    else buildEntryList.item env entry :: buildEntryList.loop env search rest

/-- Method `Server.buildEntryList`: the items and the total, or the error of
`Store.List`. -/
def buildEntryList (env : Env) (s : Server) (searchTerm : String) :
    Except Error (List entryListItem × Nat) :=
  match Store.List env.faults s.store with
  | Except.error err => Except.error err
  | Except.ok entries =>
    let total := entries.length
    let search := ToLower env.lower (TrimSpace searchTerm)
    Except.ok (buildEntryList.loop env search entries, total)

/-- Method `Server.showLibrary`. -/
def showLibrary : HandlerFunc := fun env s r =>
  let search := TrimSpace ((assocGet "q" r.Query).getD "")
  match buildEntryList env s search with
  | Except.error _ => (s, renderError 500 (Body.text "Failed to load entries"))
  | Except.ok (items, total) =>
    (s, renderTemplate "library.tmpl" (View.library
      { Title := "Content Library", Entries := items, SearchTerm := search,
        TotalEntries := total, FilteredCount := items.length,
        HasFilter := decide (search ≠ "") }))

/-- Method `Server.authenticated`: the registry after `Validate`, the token and
whether it is valid. -/
def authenticated (env : Env) (s : Server) (r : Request) : Server × String × Bool :=
  match r.Cookie sessionCookieName with
  | none => (s, "", false)
  | some value =>
    match s.sessions.Validate value env.validateNow with
    | (sessions, false) => ({ s with sessions := sessions }, "", false)
    | (sessions, true) => ({ s with sessions := sessions }, value, true)

/-- Method `Server.requireAuth`. -/
def requireAuth (next : HandlerFunc) : HandlerFunc := fun env s r =>
  match authenticated env s r with
  | (s', _, false) =>
    let nextURL := QueryEscape r.URL.RequestURI
    (s', Redirect ("/login?next=" ++ nextURL) 302)
  | (s', _, true) => next env s' r

/-- Method `Server.setSession`: the new registry and the cookie set. -/
def setSession (env : Env) (s : Server) : Server × Cookie :=
  match s.sessions.Create env.tokenRand env.sessionNow with
  | (sessions, token, expires) =>
    ({ s with sessions := sessions },
      { Name := sessionCookieName, Value := token, Path := "/", HttpOnly := true,
        SameSiteStrict := true, Expires := expires })

/-- Method `Server.handleLogin`. -/
def handleLogin : HandlerFunc := fun env s r =>
  if r.ParseFormErr then
    (s, renderTemplate "login.tmpl" (View.login "Login" "Invalid form data" (r.FormValue "next")))
  else
    let password := r.FormValue "password"
    if password ≠ s.cfg.AdminPassword then
      (s, renderTemplate "login.tmpl"
        (View.login "Login" "Incorrect password" (r.FormValue "next")))
    else
      match setSession env s with
      | (s', cookie) =>
        let next := r.FormValue "next"
        let next := if next = "" then "/admin"
          else if !HasPrefix next "/" then "/admin" else next
        (s', SetCookie cookie (Redirect next 302))

/-- Method `Server.createEntry`. -/
def createEntry : HandlerFunc := fun env s r =>
  if r.ParseFormErr then (s, renderError 400 (Body.text "Invalid form data"))
  else
    let renderer := r.FormValue "renderer"
    let raw := r.FormValue "content"
    let description := r.FormValue "description"
    match Store.Create env.faults env.rand env.now1 env.now2 s.store renderer raw description with
    | (fs, Except.error err) => ({ s with store := fs }, renderError 400 (Body.errorText err))
    | (fs, Except.ok entry) =>
      ({ s with store := fs }, renderTemplate "saved.tmpl" (View.saved "Entry Saved"
        ("/" ++ entry.Slug) ("/" ++ entry.Slug ++ "/edit")
        (formatTime env entry.CreatedAt) (formatTime env entry.UpdatedAt)
        (!IsZero entry.UpdatedAt && !decide (entry.UpdatedAt = entry.CreatedAt))))

/-- Method `Server.updateEntry`. -/
def updateEntry : HandlerFunc := fun env s r =>
  let slug := r.PathSlug
  if r.ParseFormErr then (s, renderError 400 (Body.text "Invalid form data"))
  else
    let renderer := r.FormValue "renderer"
    let raw := r.FormValue "content"
    let description := r.FormValue "description"
    match Store.Update env.faults env.now1 s.store slug renderer raw description with
    | (fs, Except.error err) => ({ s with store := fs }, renderError 400 (Body.errorText err))
    | (fs, Except.ok entry) =>
      ({ s with store := fs }, renderTemplate "saved.tmpl" (View.saved "Entry Updated"
        ("/" ++ entry.Slug) ("/" ++ entry.Slug ++ "/edit")
        (formatTime env entry.CreatedAt) (formatTime env entry.UpdatedAt)
        (!IsZero entry.UpdatedAt && !decide (entry.UpdatedAt = entry.CreatedAt))))

/-- Method `Server.deleteEntry`. -/
def deleteEntry : HandlerFunc := fun env s r =>
  let slug := r.PathSlug
  if slug = "" then (s, renderError 400 (Body.text "Invalid slug"))
  else
    match Store.Delete env.faults s.store slug with
    | (fs, Except.error err) =>
      if err = Error.entryNotFound then
        ({ s with store := fs }, renderError 404 (Body.text "Not Found"))
      else ({ s with store := fs }, renderError 500 (Body.text "Delete Failed"))
    | (fs, Except.ok _) => ({ s with store := fs }, Redirect "/admin/library" 302)

/-- The handlers of the server, by name. -/
inductive HandlerName
  | redirectAdmin | health | showLogin | handleLogin | handleLogout | showLibrary
  | showEditor | createEntry | previewEntry | showEdit | updateEntry | deleteEntry | showEntry
deriving DecidableEq, Repr

/-- One `HandleFunc` registration: the pattern, whether the handler is wrapped in
`requireAuth`, and the handler. -/
structure Route where
  pattern : String
  auth : Bool
  handler : HandlerName
deriving DecidableEq, Repr

/-- Method `Server.registerRoutes`. -/
def registerRoutes : List Route :=
  [ ⟨"GET /", false, HandlerName.redirectAdmin⟩,
    ⟨"GET /healthz", false, HandlerName.health⟩,
    ⟨"GET /login", false, HandlerName.showLogin⟩,
    ⟨"POST /login", false, HandlerName.handleLogin⟩,
    ⟨"POST /logout", true, HandlerName.handleLogout⟩,
    ⟨"GET /admin/library", true, HandlerName.showLibrary⟩,
    ⟨"GET /admin", true, HandlerName.showEditor⟩,
    ⟨"POST /admin", true, HandlerName.createEntry⟩,
    ⟨"POST /admin/preview", true, HandlerName.previewEntry⟩,
    ⟨"GET /{slug}/edit", true, HandlerName.showEdit⟩,
    ⟨"POST /{slug}/edit", true, HandlerName.updateEntry⟩,
    ⟨"POST /{slug}/delete", true, HandlerName.deleteEntry⟩,
    ⟨"GET /{slug}", false, HandlerName.showEntry⟩ ]

/-! ## Association lists and the directory -/

theorem assocGet_assocDel {ν : Type} (k k' : String) (m : List (String × ν)) :
    assocGet k (assocDel k' m) = if k = k' then none else assocGet k m := by
  induction m with
  | nil => simp [assocDel, assocGet]
  | cons p rest ih =>
    obtain ⟨a, v⟩ := p
    by_cases h1 : a = k'
    · by_cases h2 : k = k'
      · subst h1; subst h2; simpa [assocDel, assocGet] using ih
      · have h3 : ¬ k' = k := fun h => h2 h.symm
        simp [assocDel, assocGet, h1, h2, h3, ih]
    · by_cases h2 : k = k'
      · subst h2
        simp [assocDel, assocGet, h1, ih]
      · by_cases h3 : a = k
        · simp [assocDel, assocGet, h1, h2, h3]
        · simp [assocDel, assocGet, h1, h2, h3, ih]

theorem assocGet_assocSet {ν : Type} (k k' : String) (v : ν) (m : List (String × ν)) :
    assocGet k (assocSet k' v m) = if k = k' then some v else assocGet k m := by
  by_cases h : k = k'
  · subst h; simp [assocSet, assocGet]
  · have h3 : ¬ k' = k := fun e => h e.symm
    simp [assocSet, assocGet, h, h3, assocGet_assocDel]

theorem FS.lookup_write (fs : FS) (n : String) (d : FileData) (k : String) :
    (fs.write n d).lookup k = if k = n then some d else fs.lookup k := by
  simp [FS.write, FS.lookup, assocGet_assocSet]

theorem FS.lookup_remove (fs : FS) (n k : String) :
    (fs.remove n).lookup k = if k = n then none else fs.lookup k := by
  simp [FS.remove, FS.lookup, assocGet_assocDel]

/-! ## Paths -/

theorem entryPath_inj {a b : String} (h : Store.entryPath a = Store.entryPath b) : a = b := by
  unfold Store.entryPath at h
  have h2 := congrArg String.data h
  simp only [String.data_append] at h2
  exact String.ext (List.append_cancel_right h2)

theorem tmpPath_ne_entryPath (a b : String) : Store.tmpPath a ≠ Store.entryPath b := by
  intro h
  unfold Store.tmpPath Store.entryPath at h
  have h2 := congrArg (fun s => s.data.reverse) h
  simp [String.data_append] at h2

theorem Ext.scan_spec : ∀ (rev acc : List Char),
    Ext.scan rev acc = [] ∨ ∃ pre, rev.reverse ++ acc = pre ++ Ext.scan rev acc := by
  intro rev
  induction rev with
  | nil => intro acc; left; rfl
  | cons c rest ih =>
    intro acc
    unfold Ext.scan
    by_cases h1 : c.toNat = 47
    · left; simp [h1]
    · by_cases h2 : c.toNat = 46
      · right
        refine ⟨rest.reverse, ?_⟩
        simp [h1, h2]
      · simp only [h1, h2, if_false]
        rcases ih (c :: acc) with h | ⟨pre, h⟩
        · left; exact h
        · right
          refine ⟨pre, ?_⟩
          rw [← h]; simp

theorem Ext_json_suffix {n : String} (h : Ext n = ".json") :
    ∃ pre : List Char, n.data = pre ++ ".json".data := by
  unfold Ext at h
  have h2 := congrArg String.data h
  simp only at h2
  rcases Ext.scan_spec n.data.reverse [] with h3 | ⟨pre, h3⟩
  · rw [h3] at h2; simp at h2
  · refine ⟨pre, ?_⟩
    rw [h2] at h3
    simpa using h3

theorem Ext_entryPath (a : String) : Ext (Store.entryPath a) = ".json" := by
  unfold Ext Store.entryPath
  simp [String.data_append, Ext.scan]

theorem TrimSuffix_entryPath (s : String) : TrimSuffix (Store.entryPath s) ".json" = s := by
  unfold TrimSuffix Store.entryPath
  have h : ".json".data <:+ (s ++ ".json").data := by
    rw [String.data_append]; exact List.suffix_append _ _
  rw [if_pos h]
  apply String.ext
  simp [String.data_append]

theorem entryPath_TrimSuffix {n : String} (h : Ext n = ".json") :
    Store.entryPath (TrimSuffix n ".json") = n := by
  obtain ⟨pre, hp⟩ := Ext_json_suffix h
  have hn : n = Store.entryPath (String.mk pre) := by
    apply String.ext
    rw [hp]; simp [Store.entryPath, String.data_append]
  rw [hn, TrimSuffix_entryPath]

theorem assocGet_isSome_iff {ν : Type} (k : String) (m : List (String × ν)) :
    (assocGet k m).isSome ↔ k ∈ m.map Prod.fst := by
  induction m with
  | nil => simp [assocGet]
  | cons p rest ih =>
    obtain ⟨a, v⟩ := p
    by_cases h : a = k
    · simp [assocGet, h]
    · have h' : ¬ k = a := fun e => h e.symm
      simp [assocGet, h, h', ih]

theorem FS.mem_names (fs : FS) (n : String) : n ∈ fs.names ↔ (fs.lookup n).isSome := by
  unfold FS.names FS.lookup
  rw [List.mem_insertionSort, List.mem_dedup, assocGet_isSome_iff]

theorem FS.nodup_names (fs : FS) : fs.names.Nodup := by
  unfold FS.names
  exact (List.perm_insertionSort _ _).nodup_iff.mpr (List.nodup_dedup _)

theorem Store.mem_slugs (fs : FS) (s : String) :
    s ∈ Store.slugs fs ↔ (fs.lookup (Store.entryPath s)).isSome := by
  unfold Store.slugs
  simp only [List.mem_map, List.mem_filter, decide_eq_true_eq]
  constructor
  · rintro ⟨n, ⟨hn, hext⟩, rfl⟩
    rw [entryPath_TrimSuffix hext]
    exact (FS.mem_names fs n).mp hn
  · intro h
    exact ⟨Store.entryPath s, ⟨(FS.mem_names fs _).mpr h, Ext_entryPath s⟩, TrimSuffix_entryPath s⟩

theorem Store.nodup_slugs (fs : FS) : (Store.slugs fs).Nodup := by
  unfold Store.slugs
  apply List.Nodup.map_on
  · intro x hx y hy hxy
    simp only [List.mem_filter, decide_eq_true_eq] at hx hy
    rw [← entryPath_TrimSuffix hx.2, ← entryPath_TrimSuffix hy.2, hxy]
  · exact (FS.nodup_names fs).filter _

/-! ## Reading and persisting -/

/-- The directory a completed `persist` leaves. -/
theorem persist_ok {io : Faults} {fs fs' : FS} {e : Entry} {u : Unit}
    (h : Store.persist io fs e = (fs', Except.ok u)) :
    fs' = ((fs.write (Store.tmpPath e.Slug) (FileData.json e)).remove (Store.tmpPath e.Slug)).write
      (Store.entryPath e.Slug) (FileData.json e) := by
  unfold Store.persist at h
  simp only [Store.persistUpTo, FS.rename, FS.lookup_write, Store.tmpPath] at h
  split_ifs at h <;> simp_all [Store.tmpPath]

/-- In the healthy environment `persist` always completes. -/
theorem persist_healthy (fs : FS) (e : Entry) :
    Store.persist healthy fs e =
      (((fs.write (Store.tmpPath e.Slug) (FileData.json e)).remove (Store.tmpPath e.Slug)).write
      (Store.entryPath e.Slug) (FileData.json e), Except.ok ()) := by
  simp [Store.persist, healthy, Store.persistUpTo, FS.rename, FS.lookup_write, Store.tmpPath]

/-- What the directory holds after a completed `persist`. -/
theorem lookup_persisted (fs : FS) (e : Entry) (k : String) :
    (((fs.write (Store.tmpPath e.Slug) (FileData.json e)).remove (Store.tmpPath e.Slug)).write
      (Store.entryPath e.Slug) (FileData.json e)).lookup k =
    if k = Store.entryPath e.Slug then some (FileData.json e)
    else if k = Store.tmpPath e.Slug then none else fs.lookup k := by
  simp only [FS.lookup_write, FS.lookup_remove]
  split_ifs <;> rfl

/-- In the healthy environment `read` is decided by the file at the entry path. -/
theorem read_healthy (fs : FS) (slugID : String) :
    Store.read healthy fs slugID =
      match fs.lookup (Store.entryPath slugID) with
      | none => Except.error Error.entryNotFound
      | some FileData.malformed => Except.error Error.decodeEntry
      | some (FileData.json entry) => Except.ok entry := by
  simp only [Store.read, healthy]
  split <;> first | rfl | simp_all

theorem validateRenderer_ok {R : RendererType} (h : R = RendererMarkdown ∨ R = RendererHTML) :
    validateRenderer R = Except.ok () := by
  simp [validateRenderer, h]

theorem get_ok_iff (fs : FS) (s : String) (e : Entry) :
    Store.Get healthy fs s = Except.ok e ↔
      fs.lookup (Store.entryPath s) = some (FileData.json e) := by
  unfold Store.Get
  rw [read_healthy]
  split <;> simp_all

theorem allocate_free (io : Faults) (rand : Nat → Option (Fin 5 → Fin 256)) (fs : FS) :
    ∀ (n i0 : Nat), Store.Create.allocate io rand fs n i0 ≠ "" →
      fs.lookup (Store.entryPath (Store.Create.allocate io rand fs n i0)) = none := by
  intro n
  induction n with
  | zero => intro i0 h; exact absurd rfl h
  | succ n ih =>
    intro i0 h
    unfold Store.Create.allocate at h ⊢
    by_cases hs : statNotExist io fs (Store.entryPath (slug.New (rand i0))) = true
    · simp only [hs, if_true] at h ⊢
      simp only [statNotExist, Bool.and_eq_true, Option.isNone_iff_eq_none] at hs
      exact hs.2
    · simp only [hs, if_false] at h ⊢
      exact ih (i0 + 1) h

theorem create_ok {io : Faults} {rand : Nat → Option (Fin 5 → Fin 256)} {now1 now2 : Time}
    {fs fs' : FS} {R : RendererType} {C D : String} {E : Entry}
    (h : Store.Create io rand now1 now2 fs R C D = (fs', Except.ok E)) :
    fs.lookup (Store.entryPath E.Slug) = none ∧ E.CreatedAt = now1 ∧ E.UpdatedAt = now2 ∧
    fs' = ((fs.write (Store.tmpPath E.Slug) (FileData.json E)).remove (Store.tmpPath E.Slug)).write
      (Store.entryPath E.Slug) (FileData.json E) := by
  unfold Store.Create at h
  split at h
  · simp at h
  · simp only at h
    split_ifs at h with h0
    · simp at h
    · split at h
      · simp at h
      · rename_i fs1 u hp
        simp only [Prod.mk.injEq, Except.ok.injEq] at h
        obtain ⟨h1, h2⟩ := h
        subst h1
        have := persist_ok hp
        subst h2
        exact ⟨allocate_free io rand fs 5 0 h0, rfl, rfl, this⟩

/-! ## Go strings as bytes -/

theorem char_range (c : Char) : c.toNat < 0xD800 ∨ (0xDFFF < c.toNat ∧ c.toNat < 0x110000) :=
  c.valid

/-- Decoding finds an encoded code point. -/
theorem DecodeRune_utf8Bytes (c : Char) (rest : List Nat) :
    DecodeRune (utf8Bytes c ++ rest) = some (c, (utf8Bytes c).length) := by
  have hv := char_range c
  have hc : Char.ofNat c.toNat = c := Char.ofNat_toNat c
  unfold utf8Bytes
  generalize c.toNat = n at hv hc
  simp only
  by_cases h1 : n < 0x80
  · simp [h1, DecodeRune, hc]
  · by_cases h2 : n < 0x800
    · have ha : accept2 (0xC0 + n / 64) (0x80 + n % 64) = true := by
        simp [accept2, isCont]; omega
      have hb : ¬ (0xC0 + n / 64 < 0x80) := by omega
      simp [h1, h2, DecodeRune, ha, hb]
      rw [← hc]; exact congrArg Char.ofNat (by omega)
    · by_cases h3 : n < 0x10000
      · have hna : accept2 (0xE0 + n / 4096) (0x80 + n / 64 % 64) = false := by
          simp [accept2, isCont]; omega
        have ha : accept3 (0xE0 + n / 4096) (0x80 + n / 64 % 64) (0x80 + n % 64) = true := by
          simp [accept3, isCont]; omega
        have hb : ¬ (0xE0 + n / 4096 < 0x80) := by omega
        simp [h1, h2, h3, DecodeRune, ha, hna, hb]
        rw [← hc]; exact congrArg Char.ofNat (by omega)
      · have hna : accept2 (0xF0 + n / 262144) (0x80 + n / 4096 % 64) = false := by
          simp [accept2, isCont]; omega
        have hna3 : accept3 (0xF0 + n / 262144) (0x80 + n / 4096 % 64) (0x80 + n / 64 % 64) =
            false := by
          simp [accept3, isCont]; omega
        have ha : accept4 (0xF0 + n / 262144) (0x80 + n / 4096 % 64) (0x80 + n / 64 % 64)
            (0x80 + n % 64) = true := by
          simp [accept4, isCont]; omega
        have hb : ¬ (0xF0 + n / 262144 < 0x80) := by omega
        simp [h1, h2, h3, DecodeRune, ha, hna, hna3, hb]
        rw [← hc]; exact congrArg Char.ofNat (by omega)

theorem decodeRunes.go_skip : ∀ (l rest : List Nat),
    decodeRunes.go l.length (l ++ rest) = decodeRunes.go 0 rest := by
  intro l
  induction l with
  | nil => intro rest; rfl
  | cons a t ih =>
    intro rest
    cases rest with
    | nil => simpa [decodeRunes.go] using ih []
    | cons b r => simpa [decodeRunes.go] using ih (b :: r)

theorem utf8Bytes_ne_nil (c : Char) : ∃ b t, utf8Bytes c = b :: t := by
  unfold utf8Bytes
  simp only
  split_ifs <;> exact ⟨_, _, rfl⟩

theorem decodeRunes_utf8Bytes (c : Char) (rest : List Nat) :
    decodeRunes (utf8Bytes c ++ rest) = Rune.valid c :: decodeRunes rest := by
  have h := DecodeRune_utf8Bytes c rest
  obtain ⟨b, t, hb⟩ := utf8Bytes_ne_nil c
  rw [hb] at h ⊢
  unfold decodeRunes
  simp only [List.cons_append] at h ⊢
  rw [decodeRunes.go, h]
  simp only [List.length_cons, Nat.add_sub_cancel]
  rw [decodeRunes.go_skip]

/-- The runes of the encoding of a text are its code points. -/
theorem decodeRunes_utf8 (s : String) : decodeRunes (utf8 s) = s.data.map Rune.valid := by
  unfold utf8
  induction s.data with
  | nil => rfl
  | cons c t ih => rw [List.flatMap_cons, decodeRunes_utf8Bytes, ih, List.map_cons]

/-- On valid UTF-8 the JSON encoder followed by the decoder is the identity. -/
theorem jsonString_utf8 (s : String) : jsonString (utf8 s) = s := by
  unfold jsonString
  rw [decodeRunes_utf8, List.map_map]
  have : (Rune.char ∘ Rune.valid) = id := rfl
  rw [this, List.map_id]

theorem rdropWhile_map {α β : Type} (f : α → β) (p : β → Bool) (l : List α) :
    (l.map f).rdropWhile p = (l.rdropWhile (p ∘ f)).map f := by
  rw [List.rdropWhile, List.rdropWhile, ← List.map_reverse, List.dropWhile_map, List.map_reverse]

/-- On valid UTF-8 `TrimSpaceBytes` is `TrimSpace`. -/
theorem TrimSpaceBytes_utf8 (s : String) : TrimSpaceBytes (utf8 s) = utf8 (TrimSpace s) := by
  unfold TrimSpaceBytes
  rw [decodeRunes_utf8, List.dropWhile_map, rdropWhile_map]
  have h1 : ((fun r : Rune => isSpace r.char) ∘ Rune.valid) = isSpace := rfl
  rw [h1, List.flatMap_map]
  rfl

/-- On valid UTF-8 the byte version of `Create` is `Store.Create`. -/
theorem CreateBytes_utf8 (io : Faults) (rand : Nat → Option (Fin 5 → Fin 256)) (now1 now2 : Time)
    (fs : FS) (R : RendererType) (C D : String) :
    Store.CreateBytes io rand now1 now2 fs R (utf8 C) (utf8 D) =
      ((Store.Create io rand now1 now2 fs R C D).1,
        (Store.Create io rand now1 now2 fs R C D).2.map Entry.bytes) := by
  unfold Store.CreateBytes Store.Create
  cases validateRenderer R with
  | error err => rfl
  | ok u =>
    simp only
    split_ifs with h0
    · rfl
    · simp only [EntryBytes.decoded, TrimSpaceBytes_utf8, jsonString_utf8]
      cases hp : Store.persist io fs ⟨Store.Create.allocate io rand fs 5 0, R, C, TrimSpace D,
          now1, now2⟩ with
      | mk fs1 res =>
        cases res with
        | error err => rfl
        | ok u => simp [Except.map, Entry.bytes, TrimSpaceBytes_utf8]

/-- On valid UTF-8 the byte version of `Update` is `Store.Update`. -/
theorem UpdateBytes_utf8 (io : Faults) (now : Time) (fs : FS) (slugID : String)
    (R : RendererType) (C D : String) :
    Store.UpdateBytes io now fs slugID R (utf8 C) (utf8 D) =
      ((Store.Update io now fs slugID R C D).1,
        (Store.Update io now fs slugID R C D).2.map Entry.bytes) := by
  unfold Store.UpdateBytes Store.Update
  cases validateRenderer R with
  | error err => rfl
  | ok u =>
    simp only
    cases Store.read io fs slugID with
    | error err => rfl
    | ok existing =>
      simp only [EntryBytes.decoded, TrimSpaceBytes_utf8, jsonString_utf8]
      cases hp : Store.persist io fs ⟨existing.Slug, R, C, TrimSpace D,
          existing.CreatedAt, now⟩ with
      | mk fs1 res =>
        cases res with
        | error err => rfl
        | ok u => simp [Except.map, Entry.bytes, TrimSpaceBytes_utf8]

/-! ## Paths and the operating system -/

theorem splitSlash_plain : ∀ (l cur : List Char), (∀ c ∈ l, c.toNat ≠ 47) →
    splitSlash l cur = [cur ++ l] := by
  intro l
  induction l with
  | nil => intro cur _; simp [splitSlash]
  | cons c t ih =>
    intro cur h
    have hc := h c (List.mem_cons_self _ _)
    simp only [splitSlash, hc, if_false]
    rw [ih _ (fun x hx => h x (List.mem_cons_of_mem _ hx))]
    simp

theorem entryPath_chars {slugID : String} (h : plainName slugID) :
    ∀ c ∈ (Store.entryPath slugID).data, c.toNat ≠ 47 ∧ c.toNat ≠ 0 := by
  intro c hc
  simp only [Store.entryPath, String.data_append, List.mem_append] at hc
  rcases hc with hc | hc
  · exact h.1 c hc
  · revert c; decide

/-- The operating system accepts the file name of a plain identifier. -/
theorem osRejects_entryPath {slugID : String} (h : plainName slugID) :
    osRejects (Store.entryPath slugID) = false := by
  have hall := entryPath_chars h
  unfold osRejects
  rw [splitSlash_plain _ _ (fun c hc => (hall c hc).1)]
  simp only [Bool.or_eq_false_iff, List.any_eq_false, List.nil_append, List.any_cons,
    List.any_nil, Bool.or_false, decide_eq_true_eq, not_lt]
  refine ⟨fun c hc => (hall c hc).2, ?_⟩
  exact decide_eq_false (not_lt.mpr h.2)

theorem read_posix {slugID : String} (h : plainName slugID) (fs : FS) :
    Store.read posix fs slugID = Store.read healthy fs slugID := by
  simp [Store.read, posix, healthy, Syscall.paths, osRejects_entryPath h]

theorem Delete_posix {slugID : String} (h : plainName slugID) (fs : FS) :
    Store.Delete posix fs slugID = Store.Delete healthy fs slugID := by
  simp [Store.Delete, posix, healthy, Syscall.paths, osRejects_entryPath h]

theorem utf8_append (a b : String) : utf8 (a ++ b) = utf8 a ++ utf8 b := by
  simp [utf8, String.data_append]

theorem writableName_plain {slugID : String} (h : writableName slugID) : plainName slugID := by
  refine ⟨h.1, ?_⟩
  have h2 := h.2
  unfold Store.tmpPath at h2
  rw [utf8_append, List.length_append] at h2
  omega

theorem osRejects_tmpPath {slugID : String} (h : writableName slugID) :
    osRejects (Store.tmpPath slugID) = false := by
  have hall : ∀ c ∈ (Store.tmpPath slugID).data, c.toNat ≠ 47 ∧ c.toNat ≠ 0 := by
    intro c hc
    simp only [Store.tmpPath, String.data_append, List.mem_append] at hc
    rcases hc with hc | hc
    · exact entryPath_chars (writableName_plain h) c hc
    · revert c; decide
  unfold osRejects
  rw [splitSlash_plain _ _ (fun c hc => (hall c hc).1)]
  simp only [Bool.or_eq_false_iff, List.any_eq_false, List.nil_append, List.any_cons,
    List.any_nil, Bool.or_false, decide_eq_true_eq, not_lt]
  refine ⟨fun c hc => (hall c hc).2, ?_⟩
  exact decide_eq_false (not_lt.mpr h.2)

theorem persist_posix (fs : FS) (e : Entry) (h : writableName e.Slug) :
    Store.persist posix fs e = Store.persist healthy fs e := by
  have h1 := osRejects_tmpPath h
  have h2 := osRejects_entryPath (writableName_plain h)
  unfold Store.tmpPath at h1
  simp [Store.persist, posix, healthy, Syscall.paths, h1, h2]

theorem splitSlash_ne_nil : ∀ (l cur : List Char), splitSlash l cur ≠ [] := by
  intro l
  induction l with
  | nil => intro cur; simp [splitSlash]
  | cons c t ih =>
    intro cur
    unfold splitSlash
    split_ifs
    · simp
    · exact ih _

theorem joinSlash_cons {e : List Char} {rest : List (List Char)} (h : rest ≠ []) :
    joinSlash (e :: rest) = e ++ Char.ofNat 47 :: joinSlash rest := by
  cases rest with
  | nil => exact absurd rfl h
  | cons a t => rfl

theorem splitSlash_cons (c : Char) (cs cur : List Char) :
    splitSlash (c :: cs) cur =
      if c.toNat = 47 then cur :: splitSlash cs [] else splitSlash cs (cur ++ [c]) := rfl

theorem splitSlash_append_slash : ∀ (a b cur : List Char),
    splitSlash (a ++ Char.ofNat 47 :: b) cur = splitSlash a cur ++ splitSlash b [] := by
  intro a
  induction a with
  | nil => intro b cur; simp [splitSlash]
  | cons c t ih =>
    intro b cur
    rw [List.cons_append, splitSlash_cons, splitSlash_cons]
    split_ifs
    · rw [ih]; rfl
    · rw [ih]

theorem joinSlash_append_singleton : ∀ (K : List (List Char)) (n : List Char),
    joinSlash (K ++ [n]) = if K = [] then n else joinSlash K ++ Char.ofNat 47 :: n := by
  intro K
  induction K with
  | nil => intro n; rfl
  | cons e t ih =>
    intro n
    simp only [List.cons_append, reduceCtorEq, if_false]
    rw [joinSlash_cons (by simp), ih]
    cases t with
    | nil => simp [joinSlash]
    | cons a t' =>
      simp only [reduceCtorEq, if_false]
      rw [joinSlash_cons (List.cons_ne_nil a t')]
      simp

/-- An identifier that is one file name: `filepath.Join` places its file in the
content root. -/
theorem fullPath_plain (root slugID : String) (hroot : root ≠ "") (hplain : plainName slugID) :
    Store.fullPath root slugID =
      if Clean.kept root = [] then
        (if root.data.head? = some (Char.ofNat 47) then
          String.mk (Char.ofNat 47 :: (Store.entryPath slugID).data)
        else Store.entryPath slugID)
      else String.mk ((Clean root).data ++ Char.ofNat 47 :: (Store.entryPath slugID).data) := by
  have hchars := entryPath_chars hplain
  have hrd : root.data ≠ [] := fun e => hroot (String.ext e)
  have hpath : (root ++ "/" ++ Store.entryPath slugID).data =
      root.data ++ Char.ofNat 47 :: (Store.entryPath slugID).data := by
    simp [String.data_append]
  have hne : root ++ "/" ++ Store.entryPath slugID ≠ "" := by
    intro e
    have := congrArg String.data e
    rw [hpath] at this
    simp at this
  have hhead : (root ++ "/" ++ Store.entryPath slugID).data.head? = root.data.head? := by
    rw [hpath]
    cases h : root.data with
    | nil => exact absurd h hrd
    | cons a t => rfl
  have hname : Clean.step (decide (root.data.head? = some (Char.ofNat 47)))
      ((splitSlash root.data []).foldl
        (Clean.step (decide (root.data.head? = some (Char.ofNat 47)))) [])
      (Store.entryPath slugID).data =
      (Store.entryPath slugID).data :: ((splitSlash root.data []).foldl
        (Clean.step (decide (root.data.head? = some (Char.ofNat 47)))) []) := by
    have h5 : (Store.entryPath slugID).data.length ≥ 5 := by
      simp [Store.entryPath, String.data_append]
    have e1 : (Store.entryPath slugID).data ≠ [] := by
      intro e; rw [e] at h5; simp at h5
    have e2 : (Store.entryPath slugID).data ≠ [Char.ofNat 46] := by
      intro e; rw [e] at h5; simp at h5
    have e3 : (Store.entryPath slugID).data ≠ [Char.ofNat 46, Char.ofNat 46] := by
      intro e; rw [e] at h5; simp at h5
    simp [Clean.step, e1, e2, e3]
  have hkept : Clean.kept (root ++ "/" ++ Store.entryPath slugID) =
      Clean.kept root ++ [(Store.entryPath slugID).data] := by
    unfold Clean.kept
    rw [hhead, hpath, splitSlash_append_slash,
      splitSlash_plain _ _ (fun c hc => (hchars c hc).1), List.foldl_append]
    simp only [List.nil_append, List.foldl_cons, List.foldl_nil]
    rw [hname]
    simp
  unfold Store.fullPath JoinPath
  simp only [ne_eq, hroot, not_false_eq_true, if_true]
  unfold Clean
  simp only [hne, hroot, if_false, hhead, hkept, joinSlash_append_singleton]
  by_cases hr : root.data.head? = some (Char.ofNat 47)
  · by_cases hk : Clean.kept root = []
    · simp [hr, hk]
    · simp [hr, hk]
  · by_cases hk : Clean.kept root = []
    · simp [hr, hk]
    · simp [hr, hk]

/-- An identifier with path separators can name the file of another identifier. -/
theorem fullPath_alias :
    Store.fullPath "content" "sub/../entry" = Store.fullPath "content" "entry" ∧
    Store.fullPath "content" "entry" = "content/entry.json" := by
  decide

/-! ## Create, Get, Update -/

/-- C1, as stated, fails: it is not true that for every content string `C` a
successful `Store.Create(R, C, D)` is followed by a `Store.Get` that returns an
entry with `Raw == C`.  For the content `a\xffb` (bytes 61 FF 62, not valid
UTF-8) on the empty store `Create` succeeds, the JSON encoder writes the byte FF
as U+FFFD, and `Get` returns the content with U+FFFD in its place. -/
theorem create_invalid_utf8_not_read_back :
    ¬ ∀ (fs fs' : FS) (R : RendererType) (C D : Bytes) (E : EntryBytes),
      (R = RendererMarkdown ∨ R = RendererHTML) →
      Store.CreateBytes healthy (fun _ => none) 0 0 fs R C D = (fs', Except.ok E) →
      ∃ G, Store.Get healthy fs' E.Slug = Except.ok G ∧ utf8 G.Raw = C := by
  intro h
  obtain ⟨G, hG, hraw⟩ := h ⟨[]⟩ _ "markdown" [97, 255, 98] [] _ (Or.inl rfl) rfl
  have hget : Store.Get healthy
      (Store.CreateBytes healthy (fun _ => none) 0 0 ⟨[]⟩ "markdown" [97, 255, 98] []).1 "entry" =
      Except.ok ⟨"entry", "markdown", String.mk [Char.ofNat 97, Char.ofNat 0xFFFD, Char.ofNat 98],
        "", 0, 0⟩ := rfl
  have h2 := hget.symm.trans hG
  cases h2
  revert hraw
  decide

/-- C1, amended: whenever `Store.Create(R, C, D)` succeeds with entry `E` (whatever
the store state, the random source, the clock and the I/O faults during the
call, and whatever bytes `C` and `D` are), `R` is Markdown or HTML, `E` carries
`C`, `R` and the trimmed `D`, and `Store.Get(E.Slug)` on the resulting store
succeeds and returns the entry the JSON decoder reads back: `Renderer` is `R`,
`Raw` is `C` and `Description` is the trimmed `D`, each with every byte that
begins no valid UTF-8 encoding replaced by U+FFFD; so for `C` valid UTF-8 `Raw`
is `C`, and for `D` valid UTF-8 `Description` is `D` trimmed. -/
theorem create_then_get (io : Faults) (rand : Nat → Option (Fin 5 → Fin 256)) (now1 now2 : Time)
    (fs fs' : FS) (R : RendererType) (C D : Bytes) (E : EntryBytes)
    (h : Store.CreateBytes io rand now1 now2 fs R C D = (fs', Except.ok E)) :
    (R = RendererMarkdown ∨ R = RendererHTML) ∧
      E.Raw = C ∧ E.Renderer = R ∧ E.Description = TrimSpaceBytes D ∧
      Store.Get healthy fs' E.Slug = Except.ok E.decoded ∧
      E.decoded.Renderer = R ∧ E.decoded.Raw = jsonString C ∧
      E.decoded.Description = jsonString (TrimSpaceBytes D) ∧
      (∀ c : String, C = utf8 c → E.decoded.Raw = c) ∧
      (∀ d : String, D = utf8 d → E.decoded.Description = TrimSpace d) := by
  unfold Store.CreateBytes at h
  split at h
  · simp at h
  · rename_i hv
    have hR : R = RendererMarkdown ∨ R = RendererHTML := by
      by_contra hn
      simp [validateRenderer, hn] at hv
    simp only at h
    split_ifs at h with h0
    · simp at h
    · split at h
      · simp at h
      · rename_i fs1 u hp
        simp only [Prod.mk.injEq, Except.ok.injEq] at h
        obtain ⟨h1, h2⟩ := h
        subst h1
        have := persist_ok hp
        subst h2
        subst this
        refine ⟨hR, rfl, rfl, rfl, ?_, rfl, rfl, rfl, ?_, ?_⟩
        · unfold Store.Get
          rw [read_healthy]
          simp [EntryBytes.decoded, FS.lookup_write]
        · intro c hc
          simp [EntryBytes.decoded, hc, jsonString_utf8]
        · intro d hd
          simp [EntryBytes.decoded, hd, TrimSpaceBytes_utf8, jsonString_utf8]

/-- Witness for C1: the creation of the test `TestStoreCreateAndGet` on an empty
store, with a failing random source (identifier "entry"). -/
theorem create_then_get_witness :
    ("markdown" = RendererMarkdown ∨ "markdown" = RendererHTML) ∧
      EntryBytes.Raw ⟨"entry", "markdown", utf8 "# Hello", utf8 "Greeting entry", 5, 5⟩ =
        utf8 "# Hello" ∧
      EntryBytes.Renderer ⟨"entry", "markdown", utf8 "# Hello", utf8 "Greeting entry", 5, 5⟩ =
        "markdown" ∧
      EntryBytes.Description ⟨"entry", "markdown", utf8 "# Hello", utf8 "Greeting entry", 5, 5⟩ =
        TrimSpaceBytes (utf8 " Greeting entry\n") ∧
      Store.Get healthy
          ⟨[("entry.json", FileData.json ⟨"entry", "markdown", "# Hello", "Greeting entry", 5, 5⟩)]⟩
          "entry" =
        Except.ok (EntryBytes.decoded
          ⟨"entry", "markdown", utf8 "# Hello", utf8 "Greeting entry", 5, 5⟩) ∧
      (EntryBytes.decoded
          ⟨"entry", "markdown", utf8 "# Hello", utf8 "Greeting entry", 5, 5⟩).Raw = "# Hello" ∧
      (EntryBytes.decoded
          ⟨"entry", "markdown", utf8 "# Hello", utf8 "Greeting entry", 5, 5⟩).Description =
        TrimSpace " Greeting entry\n" :=
  have h := create_then_get healthy (fun _ => none) 5 5 ⟨[]⟩
    ⟨[("entry.json", FileData.json ⟨"entry", "markdown", "# Hello", "Greeting entry", 5, 5⟩)]⟩
    "markdown" (utf8 "# Hello") (utf8 " Greeting entry\n")
    ⟨"entry", "markdown", utf8 "# Hello", utf8 "Greeting entry", 5, 5⟩ rfl
  ⟨h.1, h.2.1, h.2.2.1, h.2.2.2.1, h.2.2.2.2.1, h.2.2.2.2.2.2.2.2.1 "# Hello" rfl,
    h.2.2.2.2.2.2.2.2.2 " Greeting entry\n" rfl⟩

/-- C2: `Store.Create` reads the clock twice, once for `CreatedAt` and once for
`UpdatedAt`; when the clock advances between the two readings (here from 0 to 1)
the entry it returns and persists has `CreatedAt` different from `UpdatedAt`. -/
theorem create_reads_clock_twice :
    ∃ fs' E, Store.Create healthy (fun _ => none) 0 1 ⟨[]⟩ RendererMarkdown "x" "" =
        (fs', Except.ok E) ∧ Store.Get healthy fs' E.Slug = Except.ok E ∧
      E.CreatedAt = 0 ∧ E.UpdatedAt = 1 ∧ E.CreatedAt ≠ E.UpdatedAt :=
  ⟨_, _, rfl, rfl, rfl, rfl, by decide⟩

/-- C3, as stated, fails, three times.  `UpdatedAt` is the clock reading of the
update and is not compared with `CreatedAt`: for the stored entry "entry" with
`CreatedAt` 10, an update at clock reading 5 succeeds and returns `UpdatedAt` 5,
below `CreatedAt`.  The content persisted is not always `C2`: for the content
`a\xffb` (not valid UTF-8) the JSON encoder writes U+FFFD for the byte FF, and
`Get` returns the content with U+FFFD in its place.  And the update does not
succeed for every stored entry: for a stored entry with an identifier of 248
bytes the operating system refuses the name of the temporary file
(`ENAMETOOLONG`) and `Update` fails. -/
theorem update_not_always_later_nor_verbatim :
    (¬ ∀ (now : Time) (fs : FS) (E : Entry) (R2 : RendererType) (C2 D2 : Bytes),
      Store.Get posix fs E.Slug = Except.ok E → (R2 = RendererMarkdown ∨ R2 = RendererHTML) →
      ∃ fs' U, Store.UpdateBytes posix now fs E.Slug R2 C2 D2 = (fs', Except.ok U) ∧
        U.CreatedAt ≤ U.UpdatedAt) ∧
    (¬ ∀ (now : Time) (fs : FS) (E : Entry) (R2 : RendererType) (C2 D2 : Bytes),
      Store.Get posix fs E.Slug = Except.ok E → (R2 = RendererMarkdown ∨ R2 = RendererHTML) →
      ∃ fs' U, Store.UpdateBytes posix now fs E.Slug R2 C2 D2 = (fs', Except.ok U) ∧
        ∃ G, Store.Get posix fs' E.Slug = Except.ok G ∧ utf8 G.Raw = C2) ∧
    (¬ ∀ (now : Time) (fs : FS) (E : Entry) (R2 : RendererType) (C2 D2 : Bytes),
      Store.Get posix fs E.Slug = Except.ok E → (R2 = RendererMarkdown ∨ R2 = RendererHTML) →
      ∃ fs' U, Store.UpdateBytes posix now fs E.Slug R2 C2 D2 = (fs', Except.ok U)) := by
  refine ⟨?_, ?_, ?_⟩
  · intro h
    obtain ⟨fs', U, hU, hle⟩ := h 5
      ⟨[("entry.json", FileData.json ⟨"entry", "markdown", "a", "", 10, 10⟩)]⟩
      ⟨"entry", "markdown", "a", "", 10, 10⟩ "html" [98] [] rfl (Or.inr rfl)
    have hval : Store.UpdateBytes posix 5
        ⟨[("entry.json", FileData.json ⟨"entry", "markdown", "a", "", 10, 10⟩)]⟩ "entry" "html"
          [98] [] =
        (⟨[("entry.json", FileData.json ⟨"entry", "html", "b", "", 10, 5⟩)]⟩,
          Except.ok ⟨"entry", "html", [98], [], 10, 5⟩) := rfl
    have h2 := hval.symm.trans hU
    cases h2
    revert hle
    decide
  · intro h
    obtain ⟨fs', U, hU, G, hG, hraw⟩ := h 20
      ⟨[("entry.json", FileData.json ⟨"entry", "markdown", "a", "", 10, 10⟩)]⟩
      ⟨"entry", "markdown", "a", "", 10, 10⟩ "html" [97, 255, 98] [] rfl (Or.inr rfl)
    have hval : Store.UpdateBytes posix 20
        ⟨[("entry.json", FileData.json ⟨"entry", "markdown", "a", "", 10, 10⟩)]⟩ "entry" "html"
          [97, 255, 98] [] =
        (⟨[("entry.json", FileData.json ⟨"entry", "html",
            String.mk [Char.ofNat 97, Char.ofNat 0xFFFD, Char.ofNat 98], "", 10, 20⟩)]⟩,
          Except.ok ⟨"entry", "html", [97, 255, 98], [], 10, 20⟩) := rfl
    have h2 := hval.symm.trans hU
    cases h2
    have hget : Store.Get posix ⟨[("entry.json", FileData.json ⟨"entry", "html",
            String.mk [Char.ofNat 97, Char.ofNat 0xFFFD, Char.ofNat 98], "", 10, 20⟩)]⟩ "entry" =
        Except.ok ⟨"entry", "html",
            String.mk [Char.ofNat 97, Char.ofNat 0xFFFD, Char.ofNat 98], "", 10, 20⟩ := rfl
    have h3 := hget.symm.trans hG
    cases h3
    revert hraw
    decide
  · intro h
    have hget : Store.Get posix
        ⟨[(Store.entryPath longishName,
          FileData.json ⟨longishName, "markdown", "a", "", 10, 10⟩)]⟩
        longishName = Except.ok ⟨longishName, "markdown", "a", "", 10, 10⟩ := by
      set_option maxRecDepth 100000 in
      rfl
    obtain ⟨fs', U, hU⟩ := h 20
      ⟨[(Store.entryPath longishName, FileData.json ⟨longishName, "markdown", "a", "", 10, 10⟩)]⟩
      ⟨longishName, "markdown", "a", "", 10, 10⟩ "html" [98] [] hget (Or.inr rfl)
    have hval : Store.UpdateBytes posix 20
        ⟨[(Store.entryPath longishName,
          FileData.json ⟨longishName, "markdown", "a", "", 10, 10⟩)]⟩
        longishName "html" [98] [] =
        (⟨[(Store.entryPath longishName,
            FileData.json ⟨longishName, "markdown", "a", "", 10, 10⟩)]⟩,
          Except.error Error.openTempFile) := by
      set_option maxRecDepth 100000 in
      rfl
    have h2 := hval.symm.trans hU
    cases h2

/-- C3, amended: for every stored entry `E` whose identifier is one file name
with a temporary file name within `NAME_MAX`, every valid renderer `R2` and all
bytes `C2` and `D2`, `Store.Update(E.Slug, R2, C2, D2)` at clock reading `now`,
on a POSIX file system without I/O faults, returns an entry `U` with the
identifier and the `CreatedAt` of `E`, `Renderer` `R2`, `Raw` `C2`, `Description`
the trimmed `D2` and `UpdatedAt` the reading `now`, and persists it: a following
`Get` returns `U` as the JSON decoder reads it back, that is with every byte of
`Raw` and `Description` that begins no valid UTF-8 encoding replaced by U+FFFD,
so with `Raw` `C2` and `Description` the trimmed `D2` when these are valid UTF-8.
`UpdatedAt ≥ CreatedAt` holds exactly when the reading `now` is not before
`E.CreatedAt`, and `UpdatedAt > CreatedAt` exactly when it is strictly after. -/
theorem update_replaces (now : Time) (fs : FS) (E : Entry) (R2 : RendererType) (C2 D2 : Bytes)
    (hname : writableName E.Slug)
    (hE : Store.Get posix fs E.Slug = Except.ok E)
    (hR : R2 = RendererMarkdown ∨ R2 = RendererHTML) :
    ∃ fs' U, Store.UpdateBytes posix now fs E.Slug R2 C2 D2 = (fs', Except.ok U) ∧
      U.Slug = E.Slug ∧ U.CreatedAt = E.CreatedAt ∧ U.Renderer = R2 ∧ U.Raw = C2 ∧
      U.Description = TrimSpaceBytes D2 ∧ U.UpdatedAt = now ∧
      Store.Get posix fs' E.Slug = Except.ok U.decoded ∧
      U.decoded.Slug = E.Slug ∧ U.decoded.CreatedAt = E.CreatedAt ∧ U.decoded.Renderer = R2 ∧
      U.decoded.UpdatedAt = now ∧
      U.decoded.Raw = jsonString C2 ∧ U.decoded.Description = jsonString (TrimSpaceBytes D2) ∧
      (∀ c : String, C2 = utf8 c → U.decoded.Raw = c) ∧
      (∀ d : String, D2 = utf8 d → U.decoded.Description = TrimSpace d) ∧
      (U.CreatedAt ≤ U.UpdatedAt ↔ E.CreatedAt ≤ now) ∧
      (U.CreatedAt < U.UpdatedAt ↔ E.CreatedAt < now) := by
  have hplain := writableName_plain hname
  unfold Store.Get at hE
  have hU : Store.UpdateBytes posix now fs E.Slug R2 C2 D2 =
      ((Store.persist healthy fs
          (EntryBytes.decoded ⟨E.Slug, R2, C2, TrimSpaceBytes D2, E.CreatedAt, now⟩)).1,
        Except.ok ⟨E.Slug, R2, C2, TrimSpaceBytes D2, E.CreatedAt, now⟩) := by
    unfold Store.UpdateBytes
    rw [validateRenderer_ok hR]
    simp only [hE]
    rw [persist_posix fs
      (EntryBytes.decoded ⟨E.Slug, R2, C2, TrimSpaceBytes D2, E.CreatedAt, now⟩) hname,
      persist_healthy]
  refine ⟨_, _, hU, rfl, rfl, rfl, rfl, rfl, rfl, ?_, rfl, rfl, rfl, rfl, rfl, rfl, ?_, ?_,
    Iff.rfl, Iff.rfl⟩
  · unfold Store.Get
    rw [read_posix hplain, read_healthy, persist_healthy]
    simp [EntryBytes.decoded, FS.lookup_write]
  · intro c hc
    simp [EntryBytes.decoded, hc, jsonString_utf8]
  · intro d hd
    simp [EntryBytes.decoded, hd, TrimSpaceBytes_utf8, jsonString_utf8]

/-- Witness for C3: the update of the test `TestStoreUpdate`, four nanoseconds
after the creation. -/
theorem update_replaces_witness :
    ∃ fs' U, Store.UpdateBytes posix 7
        ⟨[("entry.json", FileData.json ⟨"entry", "markdown", "initial", "first", 3, 3⟩)]⟩
        "entry" "html" (utf8 "<h1>Updated</h1>") (utf8 " updated ") = (fs', Except.ok U) ∧
      U.Slug = "entry" ∧ U.CreatedAt = 3 ∧ U.Renderer = "html" ∧ U.Raw = utf8 "<h1>Updated</h1>" ∧
      U.Description = TrimSpaceBytes (utf8 " updated ") ∧ U.UpdatedAt = 7 ∧
      Store.Get posix fs' "entry" = Except.ok U.decoded ∧
      U.decoded.Raw = "<h1>Updated</h1>" ∧ U.decoded.Description = TrimSpace " updated " ∧
      (U.CreatedAt < U.UpdatedAt ↔ (3 : Int) < 7) :=
  match update_replaces 7
    ⟨[("entry.json", FileData.json ⟨"entry", "markdown", "initial", "first", 3, 3⟩)]⟩
    ⟨"entry", "markdown", "initial", "first", 3, 3⟩ "html" (utf8 "<h1>Updated</h1>")
    (utf8 " updated ") (by decide) rfl (Or.inr rfl) with
  | ⟨fs', U, h1, h2, h3, h4, h5, h6, h7, h8, _, _, _, _, _, _, h15, h16, _, h18⟩ =>
    ⟨fs', U, h1, h2, h3, h4, h5, h6, h7, h8, h15 _ rfl, h16 _ rfl, h18⟩

/-- C4, as stated, fails, twice.  It is not true that for every renderer argument
`Store.Update` on an identifier without a record fails with `ErrEntryNotFound`:
on the empty store `Update("nope", "pdf", "x", "d")` fails with the
unsupported-renderer error, because the renderer is validated first.  And it is
not true for every identifier: for an identifier of 300 bytes the operating
system refuses the file name (`ENAMETOOLONG`, which is not `os.ErrNotExist`), and
`Update` with a valid renderer fails with the error of opening the entry. -/
theorem update_missing_not_always_not_found :
    (¬ ∀ (now : Time) (fs : FS) (slugID : String) (R : RendererType) (C D : Bytes),
      fs.lookup (Store.entryPath slugID) = none →
      Store.UpdateBytes posix now fs slugID R C D = (fs, Except.error Error.entryNotFound)) ∧
    (¬ ∀ (now : Time) (fs : FS) (slugID : String) (C D : Bytes),
      fs.lookup (Store.entryPath slugID) = none →
      Store.UpdateBytes posix now fs slugID RendererMarkdown C D =
        (fs, Except.error Error.entryNotFound)) := by
  constructor
  · intro h
    have h2 := h 0 ⟨[]⟩ "nope" "pdf" [120] [100] rfl
    have h3 : Store.UpdateBytes posix 0 ⟨[]⟩ "nope" "pdf" [120] [100] =
        (⟨[]⟩, Except.error (Error.unsupportedRenderer "pdf")) := rfl
    rw [h3] at h2
    simp at h2
  · intro h
    have h2 := h 0 ⟨[]⟩ longName [120] [100] rfl
    have h3 : Store.UpdateBytes posix 0 ⟨[]⟩ longName RendererMarkdown [120] [100] =
        (⟨[]⟩, Except.error Error.openEntry) := by
      set_option maxRecDepth 100000 in
      rfl
    rw [h3] at h2
    simp at h2

/-- C4, amended: for every store state, every identifier that is one file name
(no path separator, no NUL byte, file name within `NAME_MAX`) and has no record,
and all bytes as raw content and description, `Store.Update` (on a POSIX file
system without I/O faults) with a valid renderer fails with `ErrEntryNotFound`,
and with any other renderer fails with the unsupported-renderer error; in both
cases the store is unchanged. -/
theorem update_missing (now : Time) (fs : FS) (slugID : String) (R : RendererType) (C D : Bytes)
    (hplain : plainName slugID)
    (hmiss : fs.lookup (Store.entryPath slugID) = none) :
    (R = RendererMarkdown ∨ R = RendererHTML →
      Store.UpdateBytes posix now fs slugID R C D = (fs, Except.error Error.entryNotFound)) ∧
    (¬ (R = RendererMarkdown ∨ R = RendererHTML) →
      Store.UpdateBytes posix now fs slugID R C D =
        (fs, Except.error (Error.unsupportedRenderer R))) := by
  constructor
  · intro hR
    unfold Store.UpdateBytes
    rw [validateRenderer_ok hR, read_posix hplain, read_healthy, hmiss]
  · intro hR
    unfold Store.UpdateBytes
    simp [validateRenderer, hR]

/-- Witness for C4: an update of a missing identifier in a store holding another
entry, once with the HTML renderer and once with an unknown one. -/
theorem update_missing_witness :
    Store.UpdateBytes posix 9
        ⟨[("entry.json", FileData.json ⟨"entry", "markdown", "a", "", 3, 3⟩)]⟩
        "nope" "html" [120] [100] =
      (⟨[("entry.json", FileData.json ⟨"entry", "markdown", "a", "", 3, 3⟩)]⟩,
        Except.error Error.entryNotFound) ∧
    Store.UpdateBytes posix 9
        ⟨[("entry.json", FileData.json ⟨"entry", "markdown", "a", "", 3, 3⟩)]⟩
        "nope" "pdf" [120] [100] =
      (⟨[("entry.json", FileData.json ⟨"entry", "markdown", "a", "", 3, 3⟩)]⟩,
        Except.error (Error.unsupportedRenderer "pdf")) :=
  ⟨(update_missing 9 ⟨[("entry.json", FileData.json ⟨"entry", "markdown", "a", "", 3, 3⟩)]⟩
      "nope" "html" [120] [100] (by decide) rfl).1 (Or.inr rfl),
   (update_missing 9 ⟨[("entry.json", FileData.json ⟨"entry", "markdown", "a", "", 3, 3⟩)]⟩
      "nope" "pdf" [120] [100] (by decide) rfl).2 (by decide)⟩

/-! ## List -/

theorem readAll_healthy (fs : FS) : ∀ ns : List String,
    (∀ n ∈ ns, Ext n = ".json" → ∃ e, fs.lookup n = some (FileData.json e)) →
    ∃ es, Store.readAll healthy fs (ns.map (fun n => ⟨n, false⟩)) = Except.ok es ∧
      es.map Except.ok =
        ((ns.filter (fun n => Ext n = ".json")).map (fun n => TrimSuffix n ".json")).map
          (Store.Get healthy fs) := by
  intro ns
  induction ns with
  | nil => intro _; exact ⟨[], rfl, rfl⟩
  | cons n rest ih =>
    intro h
    obtain ⟨es, hes, hmap⟩ := ih (fun m hm => h m (List.mem_cons_of_mem _ hm))
    by_cases hext : Ext n = ".json"
    · obtain ⟨e, he⟩ := h n (List.mem_cons_self _ _) hext
      have hread : Store.read healthy fs (TrimSuffix n ".json") = Except.ok e := by
        rw [read_healthy, entryPath_TrimSuffix hext, he]
      refine ⟨e :: es, ?_, ?_⟩
      · simp only [List.map_cons, Store.readAll, Bool.false_eq_true, if_false, hext, ne_eq,
          not_true_eq_false, hread, hes]
      · simp only [List.filter_cons, hext, decide_True, if_true, List.map_cons, hmap,
          Store.Get, hread]
    · refine ⟨es, ?_, ?_⟩
      · simp only [List.map_cons, Store.readAll, Bool.false_eq_true, if_false, hext, ne_eq,
          not_false_eq_true, if_true, hes]
      · simp only [List.filter_cons, hext, decide_False, Bool.false_eq_true, if_false, hmap]

theorem entryLess_false_iff (a b : Entry) :
    entryLess b a = false ↔
      (b.CreatedAt < a.CreatedAt ∨ (a.CreatedAt = b.CreatedAt ∧ b.Slug ≤ a.Slug)) := by
  unfold entryLess
  by_cases h : b.CreatedAt = a.CreatedAt
  · simp only [h, if_true, decide_eq_false_iff_not, gt_iff_lt, not_lt, lt_irrefl, false_or,
      true_and]
  · simp only [h, if_false, decide_eq_false_iff_not, gt_iff_lt, not_lt]
    constructor
    · intro hle
      left
      exact lt_of_le_of_ne hle h
    · rintro (hlt | ⟨heq, _⟩)
      · exact le_of_lt hlt
      · exact absurd heq.symm h

theorem sortSlice_perm {α : Type} (less : α → α → Bool) (l : List α) :
    (sortSlice less l).Perm l :=
  List.perm_insertionSort _ _

theorem sortSlice_entryLess_sorted (l : List Entry) :
    (sortSlice entryLess l).Pairwise
      (fun a b => b.CreatedAt < a.CreatedAt ∨ (a.CreatedAt = b.CreatedAt ∧ b.Slug ≤ a.Slug)) := by
  haveI : IsTotal Entry (fun a b => entryLess b a = false) := ⟨by
    intro a b
    simp only [entryLess_false_iff]
    rcases lt_trichotomy a.CreatedAt b.CreatedAt with h | h | h
    · right; left; exact h
    · rcases le_total a.Slug b.Slug with h2 | h2
      · right; right; exact ⟨h.symm, h2⟩
      · left; right; exact ⟨h, h2⟩
    · left; left; exact h⟩
  haveI : IsTrans Entry (fun a b => entryLess b a = false) := ⟨by
    intro a b c
    simp only [entryLess_false_iff]
    rintro (h1 | ⟨h1, h1'⟩) (h2 | ⟨h2, h2'⟩)
    · left; exact lt_trans h2 h1
    · left; rw [← h2]; exact h1
    · left; rw [h1]; exact h2
    · right; exact ⟨h1.trans h2, le_trans h2' h1'⟩⟩
  have hs := List.sorted_insertionSort (fun a b => entryLess b a = false) l
  unfold sortSlice
  exact List.Pairwise.imp (fun {a b} h => (entryLess_false_iff a b).mp h) hs

theorem sublist_pair_of_mem {α : Type} {a b : α} :
    ∀ {l : List α}, a ∈ l → b ∈ l → a ≠ b → List.Sublist [a, b] l ∨ List.Sublist [b, a] l := by
  intro l
  induction l with
  | nil => intro ha; simp at ha
  | cons x t ih =>
    intro ha hb hne
    rcases List.mem_cons.mp ha with rfl | ha'
    · rcases List.mem_cons.mp hb with rfl | hb'
      · exact absurd rfl hne
      · left
        exact List.Sublist.cons₂ _ (List.singleton_sublist.mpr hb')
    · rcases List.mem_cons.mp hb with rfl | hb'
      · right
        exact List.Sublist.cons₂ _ (List.singleton_sublist.mpr ha')
      · rcases ih ha' hb' hne with h | h
        · left; exact List.Sublist.cons _ h
        · right; exact List.Sublist.cons _ h

theorem list_healthy (fs : FS) (hread : Store.allReadable fs) :
    ∃ l, Store.List healthy fs = Except.ok l ∧
      (l.map Except.ok).Perm ((Store.slugs fs).map (Store.Get healthy fs)) ∧
      l.Pairwise
        (fun a b => b.CreatedAt < a.CreatedAt ∨ (a.CreatedAt = b.CreatedAt ∧ b.Slug ≤ a.Slug)) := by
  have hall : ∀ n ∈ fs.names, Ext n = ".json" → ∃ e, fs.lookup n = some (FileData.json e) := by
    intro n hn hext
    have hsome := (FS.mem_names fs n).mp hn
    rw [← entryPath_TrimSuffix hext] at hsome
    obtain ⟨e, he⟩ := hread _ hsome
    rw [get_ok_iff, entryPath_TrimSuffix hext] at he
    exact ⟨e, he⟩
  obtain ⟨es, hes, hmap⟩ := readAll_healthy fs fs.names hall
  refine ⟨sortSlice entryLess es, ?_, ?_, sortSlice_entryLess_sorted es⟩
  · simp only [Store.List, ReadDir, healthy, Bool.false_eq_true, if_false]
    have hes' := hes
    simp only [healthy] at hes'
    rw [hes']
  · have := (sortSlice_perm entryLess es).map (Except.ok : Entry → Except Error Entry)
    rw [hmap] at this
    exact this

theorem allReadable_persisted {fs : FS} (hread : Store.allReadable fs) (E : Entry) :
    Store.allReadable
      (((fs.write (Store.tmpPath E.Slug) (FileData.json E)).remove (Store.tmpPath E.Slug)).write
        (Store.entryPath E.Slug) (FileData.json E)) := by
  intro s hs
  by_cases h : s = E.Slug
  · refine ⟨E, ?_⟩
    rw [get_ok_iff, lookup_persisted, h]
    simp
  · have h1 : Store.entryPath s ≠ Store.entryPath E.Slug := fun e => h (entryPath_inj e)
    have h2 : Store.entryPath s ≠ Store.tmpPath E.Slug := fun e => tmpPath_ne_entryPath _ _ e.symm
    rw [lookup_persisted] at hs
    simp only [h1, h2, if_false] at hs
    obtain ⟨e, he⟩ := hread s hs
    refine ⟨e, ?_⟩
    rw [get_ok_iff] at he ⊢
    rw [lookup_persisted]
    simp only [h1, h2, if_false, he]

/-- C5: for every store state in which all records are readable, `Store.List` (on a
file system without I/O faults) succeeds; its result is, up to order, the list of
what `Get` returns on the identifiers that have a record, each identifier counted
exactly once; it is ordered by `CreatedAt` descending, entries of identical
`CreatedAt` by identifier descending; and after creating `A` and then `B` with a
strictly later `CreatedAt`, `B` comes before `A` in the list. -/
theorem list_complete_sorted (fs : FS) (hread : Store.allReadable fs) :
    (∃ l, Store.List healthy fs = Except.ok l ∧
      (l.map Except.ok).Perm ((Store.slugs fs).map (Store.Get healthy fs)) ∧
      l.Pairwise
        (fun a b => b.CreatedAt < a.CreatedAt ∨ (a.CreatedAt = b.CreatedAt ∧ b.Slug ≤ a.Slug))) ∧
    (Store.slugs fs).Nodup ∧
    (∀ s, s ∈ Store.slugs fs ↔ (fs.lookup (Store.entryPath s)).isSome) ∧
    (∀ (io1 io2 : Faults) (rand1 rand2 : Nat → Option (Fin 5 → Fin 256)) (t1 t1' t2 t2' : Time)
      (R1 R2 : RendererType) (C1 D1 C2 D2 : String) (fs1 fs2 : FS) (A B : Entry),
      Store.Create io1 rand1 t1 t1' fs R1 C1 D1 = (fs1, Except.ok A) →
      Store.Create io2 rand2 t2 t2' fs1 R2 C2 D2 = (fs2, Except.ok B) →
      A.CreatedAt < B.CreatedAt →
      ∃ l, Store.List healthy fs2 = Except.ok l ∧ List.Sublist [B, A] l) := by
  refine ⟨list_healthy fs hread, Store.nodup_slugs fs, Store.mem_slugs fs, ?_⟩
  intro io1 io2 rand1 rand2 t1 t1' t2 t2' R1 R2 C1 D1 C2 D2 fs1 fs2 A B hA hB hlt
  obtain ⟨_, _, _, hfs1⟩ := create_ok hA
  obtain ⟨hBfree, _, _, hfs2⟩ := create_ok hB
  have hr1 : Store.allReadable fs1 := hfs1 ▸ allReadable_persisted hread A
  have hr2 : Store.allReadable fs2 := hfs2 ▸ allReadable_persisted hr1 B
  have hA1 : fs1.lookup (Store.entryPath A.Slug) = some (FileData.json A) := by
    rw [hfs1, lookup_persisted]; simp
  have hne : A.Slug ≠ B.Slug := by
    intro e
    rw [e, hBfree] at hA1
    cases hA1
  have hA2 : fs2.lookup (Store.entryPath A.Slug) = some (FileData.json A) := by
    have h1 : Store.entryPath A.Slug ≠ Store.entryPath B.Slug := fun e => hne (entryPath_inj e)
    have h2 : Store.entryPath A.Slug ≠ Store.tmpPath B.Slug :=
      fun e => tmpPath_ne_entryPath _ _ e.symm
    rw [hfs2, lookup_persisted]
    simp only [h1, h2, if_false, hA1]
  have hB2 : fs2.lookup (Store.entryPath B.Slug) = some (FileData.json B) := by
    rw [hfs2, lookup_persisted]; simp
  obtain ⟨l, hl, hperm, hsorted⟩ := list_healthy fs2 hr2
  have hmem : ∀ (E : Entry), fs2.lookup (Store.entryPath E.Slug) = some (FileData.json E) →
      E ∈ l := by
    intro E hE
    have h1 : E.Slug ∈ Store.slugs fs2 := (Store.mem_slugs fs2 _).mpr (by simp [hE])
    have h2 : (Except.ok E : Except Error Entry) ∈ (Store.slugs fs2).map (Store.Get healthy fs2) :=
      List.mem_map.mpr ⟨E.Slug, h1, (get_ok_iff fs2 _ _).mpr hE⟩
    have h3 := hperm.mem_iff.mpr h2
    obtain ⟨E', hE', heq⟩ := List.mem_map.mp h3
    cases heq
    exact hE'
  have hAB : B ≠ A := by
    intro e
    rw [e] at hlt
    exact lt_irrefl _ hlt
  refine ⟨l, hl, ?_⟩
  rcases sublist_pair_of_mem (hmem B hB2) (hmem A hA2) hAB with h | h
  · exact h
  · exfalso
    have h2 := hsorted.sublist h
    simp only [List.pairwise_cons, List.mem_singleton, forall_eq] at h2
    rcases h2.1 with h3 | ⟨h3, _⟩
    · exact lt_asymm hlt h3
    · rw [h3] at hlt; exact lt_irrefl _ hlt

/-- Witness for C5: a store holding two readable records. -/
theorem list_complete_sorted_witness :
    Store.allReadable
        ⟨[("aaaaaaaa.json", FileData.json ⟨"aaaaaaaa", "html", "<p>second</p>", "beta", 9, 9⟩),
          ("entry.json", FileData.json ⟨"entry", "markdown", "first", "alpha", 3, 3⟩)]⟩ ∧
    ∃ l, Store.List healthy
        ⟨[("aaaaaaaa.json", FileData.json ⟨"aaaaaaaa", "html", "<p>second</p>", "beta", 9, 9⟩),
          ("entry.json", FileData.json ⟨"entry", "markdown", "first", "alpha", 3, 3⟩)]⟩ =
          Except.ok l ∧
      (l.map Except.ok).Perm ((Store.slugs
        ⟨[("aaaaaaaa.json", FileData.json ⟨"aaaaaaaa", "html", "<p>second</p>", "beta", 9, 9⟩),
          ("entry.json", FileData.json ⟨"entry", "markdown", "first", "alpha", 3, 3⟩)]⟩).map
        (Store.Get healthy
          ⟨[("aaaaaaaa.json", FileData.json ⟨"aaaaaaaa", "html", "<p>second</p>", "beta", 9, 9⟩),
            ("entry.json", FileData.json ⟨"entry", "markdown", "first", "alpha", 3, 3⟩)]⟩)) ∧
      l.Pairwise
        (fun a b => b.CreatedAt < a.CreatedAt ∨ (a.CreatedAt = b.CreatedAt ∧ b.Slug ≤ a.Slug)) :=
  have h : Store.allReadable
      ⟨[("aaaaaaaa.json", FileData.json ⟨"aaaaaaaa", "html", "<p>second</p>", "beta", 9, 9⟩),
        ("entry.json", FileData.json ⟨"entry", "markdown", "first", "alpha", 3, 3⟩)]⟩ :=
    have h0 : Store.allReadable ⟨[]⟩ := fun _ hs => absurd hs (by simp [FS.lookup, assocGet])
    allReadable_persisted (allReadable_persisted h0
      ⟨"entry", "markdown", "first", "alpha", 3, 3⟩)
      ⟨"aaaaaaaa", "html", "<p>second</p>", "beta", 9, 9⟩
  ⟨h, (list_complete_sorted _ h).1⟩

/-! ## Delete -/

/-- C6, as stated, fails: it is not true that for every identifier without a
record `Store.Delete` fails with `ErrEntryNotFound`.  For an identifier of 300
bytes the operating system refuses the file name (`ENAMETOOLONG`, which is not
`os.ErrNotExist`), and `Delete` on the empty store fails with the error of
deleting the entry. -/
theorem delete_unknown_not_always_not_found :
    ¬ ∀ (fs : FS) (slugID : String), fs.lookup (Store.entryPath slugID) = none →
      Store.Delete posix fs slugID = (fs, Except.error Error.entryNotFound) := by
  intro h
  have h2 := h ⟨[]⟩ longName rfl
  have h3 : Store.Delete posix ⟨[]⟩ longName = (⟨[]⟩, Except.error Error.deleteEntry) := by
    set_option maxRecDepth 100000 in
    rfl
  rw [h3] at h2
  simp at h2

/-- C6, amended: for every store state and every identifier that is one file name
(no path separator, no NUL byte, file name within `NAME_MAX`), on a POSIX file
system without I/O faults, if a record exists then `Store.Delete` succeeds, a
following `Get` of the identifier fails with `ErrEntryNotFound`, every other file
is unchanged and so is what `Get` returns for every other such identifier; if no
record exists then `Store.Delete` fails with `ErrEntryNotFound`, the store is
unchanged and `Get` fails with `ErrEntryNotFound` as before. -/
theorem delete_spec (fs : FS) (slugID : String) (hplain : plainName slugID) :
    ((fs.lookup (Store.entryPath slugID)).isSome →
      ∃ fs', Store.Delete posix fs slugID = (fs', Except.ok ()) ∧
        Store.Get posix fs' slugID = Except.error Error.entryNotFound ∧
        (∀ name, name ≠ Store.entryPath slugID → fs'.lookup name = fs.lookup name) ∧
        (∀ other, plainName other → other ≠ slugID →
          Store.Get posix fs' other = Store.Get posix fs other)) ∧
    (fs.lookup (Store.entryPath slugID) = none →
      Store.Delete posix fs slugID = (fs, Except.error Error.entryNotFound) ∧
      Store.Get posix fs slugID = Except.error Error.entryNotFound) := by
  constructor
  · intro h
    obtain ⟨d, hd⟩ := Option.isSome_iff_exists.mp h
    refine ⟨fs.remove (Store.entryPath slugID), ?_, ?_, ?_, ?_⟩
    · rw [Delete_posix hplain]
      simp [Store.Delete, healthy, hd]
    · unfold Store.Get
      rw [read_posix hplain]
      simp [read_healthy, FS.lookup_remove]
    · intro name hne
      simp [FS.lookup_remove, hne]
    · intro other hother hne
      have : Store.entryPath other ≠ Store.entryPath slugID := fun e => hne (entryPath_inj e)
      unfold Store.Get
      rw [read_posix hother, read_posix hother]
      simp [read_healthy, FS.lookup_remove, this]
  · intro h
    constructor
    · rw [Delete_posix hplain]
      simp [Store.Delete, healthy, h]
    · unfold Store.Get
      rw [read_posix hplain, read_healthy, h]

/-- Witness for C6: the deletion of the test `TestStoreDelete` next to a second
record, and a deletion on the empty store. -/
theorem delete_spec_witness :
    (∃ fs', Store.Delete posix
          ⟨[("entry.json", FileData.json ⟨"entry", "markdown", "hello", "desc", 3, 3⟩),
            ("aaaaaaaa.json", FileData.json ⟨"aaaaaaaa", "html", "x", "", 1, 1⟩)]⟩ "entry" =
          (fs', Except.ok ()) ∧
        Store.Get posix fs' "entry" = Except.error Error.entryNotFound ∧
        (∀ name, name ≠ Store.entryPath "entry" → fs'.lookup name =
          FS.lookup ⟨[("entry.json", FileData.json ⟨"entry", "markdown", "hello", "desc", 3, 3⟩),
            ("aaaaaaaa.json", FileData.json ⟨"aaaaaaaa", "html", "x", "", 1, 1⟩)]⟩ name) ∧
        (∀ other, plainName other → other ≠ "entry" → Store.Get posix fs' other =
          Store.Get posix
            ⟨[("entry.json", FileData.json ⟨"entry", "markdown", "hello", "desc", 3, 3⟩),
              ("aaaaaaaa.json", FileData.json ⟨"aaaaaaaa", "html", "x", "", 1, 1⟩)]⟩ other)) ∧
    (Store.Delete posix ⟨[]⟩ "entry" = (⟨[]⟩, Except.error Error.entryNotFound) ∧
      Store.Get posix ⟨[]⟩ "entry" = Except.error Error.entryNotFound) :=
  ⟨(delete_spec ⟨[("entry.json", FileData.json ⟨"entry", "markdown", "hello", "desc", 3, 3⟩),
        ("aaaaaaaa.json", FileData.json ⟨"aaaaaaaa", "html", "x", "", 1, 1⟩)]⟩ "entry"
      (by decide)).1 rfl,
   (delete_spec ⟨[]⟩ "entry" (by decide)).2 rfl⟩

/-! ## Identifier allocation -/

theorem base32Char_ne_pad : ∀ k, k < 32 → base32Char k ≠ Char.ofNat 61 := by
  decide

theorem slug_New_ne_empty (r : Option (Fin 5 → Fin 256)) : slug.New r ≠ "" := by
  cases r with
  | none => decide
  | some buf =>
    intro h
    have h2 := congrArg String.data h
    simp only [slug.New, lowerASCII, TrimRight, base32Encode5] at h2
    have h3 : List.rdropWhile (fun c => decide (c = Char.ofNat 61))
        (List.map (fun i => base32Char (((buf 0).val * 2 ^ 32 + (buf 1).val * 2 ^ 24 +
          (buf 2).val * 2 ^ 16 + (buf 3).val * 2 ^ 8 + (buf 4).val) / 32 ^ (7 - i) % 32))
          (List.range 8)) = [] := by
      simpa using h2
    rw [List.rdropWhile_eq_nil_iff] at h3
    have h4 := h3 (base32Char (((buf 0).val * 2 ^ 32 + (buf 1).val * 2 ^ 24 +
          (buf 2).val * 2 ^ 16 + (buf 3).val * 2 ^ 8 + (buf 4).val) / 32 ^ (7 - 0) % 32))
      (List.mem_map.mpr ⟨0, by simp, rfl⟩)
    simp only [decide_eq_true_eq] at h4
    exact base32Char_ne_pad _ (Nat.mod_lt _ (by norm_num)) h4

theorem statNotExist_healthy (fs : FS) (path : String) :
    statNotExist healthy fs path = (fs.lookup path).isNone := by
  simp [statNotExist, healthy]

theorem allocate_first (rand : Nat → Option (Fin 5 → Fin 256)) (fs : FS) :
    ∀ (n i0 k : Nat), k < n →
      (∀ j, j < k → (fs.lookup (Store.entryPath (slug.New (rand (i0 + j))))).isSome) →
      fs.lookup (Store.entryPath (slug.New (rand (i0 + k)))) = none →
      Store.Create.allocate healthy rand fs n i0 = slug.New (rand (i0 + k)) := by
  intro n
  induction n with
  | zero => intro i0 k hk; omega
  | succ n ih =>
    intro i0 k hk hused hfree
    unfold Store.Create.allocate
    cases k with
    | zero =>
      simp only [Nat.add_zero] at hfree
      simp [statNotExist_healthy, hfree]
    | succ k =>
      have h0 := hused 0 (by omega)
      simp only [Nat.add_zero] at h0
      obtain ⟨d, hd⟩ := Option.isSome_iff_exists.mp h0
      simp only [statNotExist_healthy, hd, Option.isNone_some, Bool.false_eq_true, if_false]
      have := ih (i0 + 1) k (by omega)
        (fun j hj => by have := hused (j + 1) (by omega); rwa [show i0 + 1 + j = i0 + (j + 1) by omega])
        (by rwa [show i0 + 1 + k = i0 + (k + 1) by omega])
      rw [this, show i0 + 1 + k = i0 + (k + 1) by omega]

theorem allocate_empty_iff (rand : Nat → Option (Fin 5 → Fin 256)) (fs : FS) :
    ∀ (n i0 : Nat), Store.Create.allocate healthy rand fs n i0 = "" ↔
      ∀ j, j < n → (fs.lookup (Store.entryPath (slug.New (rand (i0 + j))))).isSome := by
  intro n
  induction n with
  | zero => intro i0; simp [Store.Create.allocate]
  | succ n ih =>
    intro i0
    unfold Store.Create.allocate
    cases hl : fs.lookup (Store.entryPath (slug.New (rand i0))) with
    | none =>
      simp only [statNotExist_healthy, hl, Option.isNone_none, if_true]
      constructor
      · intro h; exact absurd h (slug_New_ne_empty _)
      · intro h
        have := h 0 (by omega)
        simp [hl] at this
    | some d =>
      simp only [statNotExist_healthy, hl, Option.isNone_some, Bool.false_eq_true, if_false]
      rw [ih (i0 + 1)]
      constructor
      · intro h j hj
        cases j with
        | zero => simp [hl]
        | succ j =>
          have := h j (by omega)
          rwa [show i0 + 1 + j = i0 + (j + 1) by omega] at this
      · intro h j hj
        have := h (j + 1) (by omega)
        rwa [show i0 + 1 + j = i0 + (j + 1) by omega]

theorem allocate_congr (io : Faults) (rand rand' : Nat → Option (Fin 5 → Fin 256)) (fs : FS) :
    ∀ (n i0 : Nat), (∀ j, j < n → rand' (i0 + j) = rand (i0 + j)) →
      Store.Create.allocate io rand' fs n i0 = Store.Create.allocate io rand fs n i0 := by
  intro n
  induction n with
  | zero => intro i0 _; rfl
  | succ n ih =>
    intro i0 h
    unfold Store.Create.allocate
    have h0 := h 0 (by omega)
    simp only [Nat.add_zero] at h0
    rw [h0, ih (i0 + 1) (fun j hj => by
      have := h (j + 1) (by omega)
      rwa [show i0 + 1 + j = i0 + (j + 1) by omega])]

/-- C7: for every store state, valid renderer and random source, on a file system
without I/O faults, `Store.Create` succeeds with the first of the five candidates
`slug.New` returns whose file does not exist, persists the entry under that
identifier and leaves every other record as it was; it fails with the allocation
error, the store unchanged, exactly when all five candidates are in use; and only
the first five candidates matter. -/
theorem create_allocation (rand : Nat → Option (Fin 5 → Fin 256)) (now1 now2 : Time) (fs : FS)
    (R : RendererType) (C D : String) (hR : R = RendererMarkdown ∨ R = RendererHTML) :
    (∀ i, i < 5 →
      (∀ j, j < i → (fs.lookup (Store.entryPath (slug.New (rand j)))).isSome) →
      fs.lookup (Store.entryPath (slug.New (rand i))) = none →
      ∃ fs', Store.Create healthy rand now1 now2 fs R C D =
          (fs', Except.ok ⟨slug.New (rand i), R, C, TrimSpace D, now1, now2⟩) ∧
        Store.Get healthy fs' (slug.New (rand i)) =
          Except.ok ⟨slug.New (rand i), R, C, TrimSpace D, now1, now2⟩ ∧
        ∀ other, other ≠ slug.New (rand i) →
          fs'.lookup (Store.entryPath other) = fs.lookup (Store.entryPath other)) ∧
    ((∀ i, i < 5 → (fs.lookup (Store.entryPath (slug.New (rand i)))).isSome) ↔
      Store.Create healthy rand now1 now2 fs R C D = (fs, Except.error Error.allocateSlug)) ∧
    (∀ rand' : Nat → Option (Fin 5 → Fin 256), (∀ i, i < 5 → rand' i = rand i) →
      Store.Create healthy rand' now1 now2 fs R C D =
        Store.Create healthy rand now1 now2 fs R C D) := by
  refine ⟨?_, ?_, ?_⟩
  · intro i hi hused hfree
    have ha : Store.Create.allocate healthy rand fs 5 0 = slug.New (rand i) := by
      have := allocate_first rand fs 5 0 i hi (by simpa using hused) (by simpa using hfree)
      simpa using this
    have hc : Store.Create healthy rand now1 now2 fs R C D =
        ((Store.persist healthy fs ⟨slug.New (rand i), R, C, TrimSpace D, now1, now2⟩).1,
          Except.ok ⟨slug.New (rand i), R, C, TrimSpace D, now1, now2⟩) := by
      unfold Store.Create
      rw [validateRenderer_ok hR]
      simp only [ha, slug_New_ne_empty, if_false]
      rw [persist_healthy]
    refine ⟨_, hc, ?_, ?_⟩
    · unfold Store.Get
      rw [read_healthy, persist_healthy]
      simp [FS.lookup_write]
    · intro other hne
      rw [persist_healthy]
      have h1 : Store.entryPath other ≠ Store.entryPath (slug.New (rand i)) :=
        fun e => hne (entryPath_inj e)
      have h2 : Store.entryPath other ≠ Store.tmpPath (slug.New (rand i)) :=
        fun e => tmpPath_ne_entryPath _ _ e.symm
      simp [FS.lookup_write, FS.lookup_remove, h1, h2]
  · have hiff := allocate_empty_iff rand fs 5 0
    simp only [Nat.zero_add] at hiff
    rw [← hiff]
    constructor
    · intro h
      unfold Store.Create
      rw [validateRenderer_ok hR]
      simp [h]
    · intro h
      by_contra hne
      unfold Store.Create at h
      rw [validateRenderer_ok hR] at h
      simp only [hne, if_false] at h
      rw [persist_healthy] at h
      have h2 := congrArg Prod.snd h
      cases h2
  · intro rand' hagree
    unfold Store.Create
    rw [allocate_congr healthy rand rand' fs 5 0 (by simpa using hagree)]

/-- Witness for C7: the first candidate ("entry", from a failing random source) is
in use, the second ("aaaaaaaa") is free and is taken. -/
theorem create_allocation_witness :
    ∃ fs', Store.Create healthy (fun i => if i = 0 then none else some (fun _ => 0)) 4 4
          ⟨[("entry.json", FileData.json ⟨"entry", "markdown", "first", "", 3, 3⟩)]⟩
          "html" "<p>x</p>" "" =
        (fs', Except.ok ⟨"aaaaaaaa", "html", "<p>x</p>", "", 4, 4⟩) ∧
      Store.Get healthy fs' "aaaaaaaa" = Except.ok ⟨"aaaaaaaa", "html", "<p>x</p>", "", 4, 4⟩ ∧
      ∀ other, other ≠ "aaaaaaaa" →
        fs'.lookup (Store.entryPath other) =
          FS.lookup ⟨[("entry.json", FileData.json ⟨"entry", "markdown", "first", "", 3, 3⟩)]⟩
            (Store.entryPath other) :=
  (create_allocation (fun i => if i = 0 then none else some (fun _ => 0)) 4 4
    ⟨[("entry.json", FileData.json ⟨"entry", "markdown", "first", "", 3, 3⟩)]⟩
    "html" "<p>x</p>" "" (Or.inr rfl)).1 1 (by decide)
    (fun j hj => by
      have hj0 : j = 0 := by omega
      subst hj0
      rfl)
    rfl

/-! ## Interrupted writes -/

/-- C8: for every store state and entry being persisted, at every point of
`Store.persist` before its rename step (temporary file created, holding any part
of the encoding, fully written, closed) and after every failed `persist`, a read
of any identifier, that of the entry included, returns exactly what it returned
before the write began; the record only changes with the rename, which a
`persist` without fault performs on the closed temporary file. -/
theorem persist_abort_invisible (fs : FS) (entry : Entry) :
    (∀ (io : Faults) (stage : Stage) (slugID : String),
      Store.Get io (Store.persistUpTo fs entry stage) slugID = Store.Get io fs slugID) ∧
    (∀ (io io' : Faults) (fs' : FS) (err : Error) (slugID : String),
      Store.persist io fs entry = (fs', Except.error err) →
      Store.Get io' fs' slugID = Store.Get io' fs slugID) ∧
    (Store.persist healthy fs entry =
      ((((Store.persistUpTo fs entry Stage.closed).remove (Store.tmpPath entry.Slug)).write
        (Store.entryPath entry.Slug) (FileData.json entry)), Except.ok ())) := by
  have key : ∀ (io : Faults) (stage : Stage) (slugID : String),
      Store.Get io (Store.persistUpTo fs entry stage) slugID = Store.Get io fs slugID := by
    intro io stage slugID
    have hne : Store.entryPath slugID ≠ Store.tmpPath entry.Slug :=
      fun e => tmpPath_ne_entryPath _ _ e.symm
    cases stage <;> simp [Store.Get, Store.read, Store.persistUpTo, FS.lookup_write, hne]
  refine ⟨key, ?_, ?_⟩
  · intro io io' fs' err slugID h
    unfold Store.persist at h
    simp only at h
    split_ifs at h
    · simp only [Prod.mk.injEq] at h; rw [← h.1]
    · simp only [Prod.mk.injEq] at h; rw [← h.1]; exact key _ _ _
    · simp only [Prod.mk.injEq] at h; rw [← h.1]; exact key _ _ _
    · simp only [Prod.mk.injEq] at h; rw [← h.1]; exact key _ _ _
    · split at h
      · simp only [Prod.mk.injEq] at h; rw [← h.1]; exact key _ _ _
      · simp at h
  · rw [persist_healthy]; rfl

/-- Witness for C8: a write of a new version of "entry" that fails while encoding
and leaves a malformed temporary file; the record read is the prior one. -/
theorem persist_abort_invisible_witness :
    Store.Get healthy
        (FS.write ⟨[("entry.json", FileData.json ⟨"entry", "markdown", "old", "", 3, 3⟩)]⟩
          "entry.json.tmp" FileData.malformed) "entry" =
      Store.Get healthy ⟨[("entry.json", FileData.json ⟨"entry", "markdown", "old", "", 3, 3⟩)]⟩
        "entry" :=
  (persist_abort_invisible
      ⟨[("entry.json", FileData.json ⟨"entry", "markdown", "old", "", 3, 3⟩)]⟩
      ⟨"entry", "html", "new", "", 3, 8⟩).2.1
    ⟨fun c => c == Syscall.Encode "entry.json.tmp", FileData.malformed⟩ healthy _
    Error.encodeEntry "entry" rfl

/-! ## Sessions -/

/-- C9, as stated, fails: it is not true that `Validate` returns true exactly when
the token is registered and the current time is strictly before its expiry.  With
the token "t" registered with expiry 100, `Validate("t")` at time 100 is true. -/
theorem validate_strictly_before_fails :
    ¬ ∀ (s : sessionStore) (token : String) (now : Time),
      ((s.Validate token now).2 = true ↔ ∃ sess, s.get token = some sess ∧ now < sess.expires) := by
  intro h
  have h1 := h ⟨[("t", ⟨100⟩)]⟩ "t" 100
  have h2 : (sessionStore.Validate ⟨[("t", ⟨100⟩)]⟩ "t" 100).2 = true := by decide
  obtain ⟨sess, hs, hlt⟩ := h1.mp h2
  have h3 : sessionStore.get ⟨[("t", ⟨100⟩)]⟩ "t" = some ⟨100⟩ := by decide
  rw [h3] at hs
  cases hs
  exact absurd hlt (by decide)

/-- C9, amended: for every registry state, token and current time, `Validate`
returns true if and only if the token is not empty, is registered, and the
current time is not after its expiry (at the expiry instant it is still true). -/
theorem validate_iff (s : sessionStore) (token : String) (now : Time) :
    (s.Validate token now).2 = true ↔
      token ≠ "" ∧ ∃ sess, s.get token = some sess ∧ now ≤ sess.expires := by
  unfold sessionStore.Validate
  by_cases h0 : token = ""
  · simp [h0]
  · cases hg : s.get token with
    | none => simp [h0]
    | some sess =>
      by_cases hlt : now > sess.expires
      · simp [h0, hlt]
      · simp [h0, hlt]
        exact not_lt.mp hlt

theorem newToken_ne_empty (r : Option (Fin 32 → Fin 256)) : newToken r ≠ "" := by
  cases r with
  | none => decide
  | some buf =>
    intro h
    have h2 := congrArg String.data h
    simp [newToken, List.ofFn_succ, base64Raw] at h2

theorem sessionStore.get_Remove (s : sessionStore) (token k : String) (h : token ≠ "") :
    (s.Remove token).get k = if k = token then none else s.get k := by
  simp [sessionStore.Remove, h, sessionStore.get, assocGet_assocDel]

theorem sessionTTL_eq : sessionTTL = 86400 * 1000000000 := by
  decide

/-- C10: `newToken` never returns the empty token.  For every registry state,
`Create` registers the token it returns with expiry the creation time plus 24
hours, that is plus 86 400 seconds of 1 000 000 000 nanoseconds; `Validate` of
that token is true from then until that instant, leaving the registry as it is,
and false after it; `Validate(token)` is false after `Remove(token)`; and once
the current time has passed the expiry of a registered non-empty token, without
any removal, `Validate` is false, the token is evicted and every other token is
left unchanged. -/
theorem session_lifecycle :
    (∀ r : Option (Fin 32 → Fin 256), newToken r ≠ "") ∧
    (∀ (s : sessionStore) (r : Option (Fin 32 → Fin 256)) (now now' : Time),
      (s.Create r now).2.1 = newToken r ∧
      (s.Create r now).2.2 = now + 86400 * 1000000000 ∧
      (s.Create r now).1.get (s.Create r now).2.1 = some ⟨now + 86400 * 1000000000⟩ ∧
      (now' ≤ now + 86400 * 1000000000 →
        (s.Create r now).1.Validate (s.Create r now).2.1 now' = ((s.Create r now).1, true)) ∧
      (now + 86400 * 1000000000 < now' →
        ((s.Create r now).1.Validate (s.Create r now).2.1 now').2 = false)) ∧
    (∀ (s : sessionStore) (token : String) (now : Time),
      ((s.Remove token).Validate token now).2 = false) ∧
    (∀ (s : sessionStore) (token : String) (exp now : Time),
      token ≠ "" → s.get token = some ⟨exp⟩ → exp < now →
        (s.Validate token now).2 = false ∧
        (s.Validate token now).1.get token = none ∧
        ∀ other, other ≠ token → (s.Validate token now).1.get other = s.get other) := by
  refine ⟨newToken_ne_empty, ?_, ?_, ?_⟩
  · intro s r now now'
    have hne := newToken_ne_empty r
    have hexp : (s.Create r now).2.2 = now + 86400 * 1000000000 := by
      rw [← sessionTTL_eq]; rfl
    have hget : (s.Create r now).1.get (s.Create r now).2.1 =
        some ⟨now + 86400 * 1000000000⟩ := by
      rw [← sessionTTL_eq]
      simp [sessionStore.Create, sessionStore.get, assocGet_assocSet]
    have h1 : (s.Create r now).2.1 = newToken r := rfl
    refine ⟨rfl, hexp, hget, ?_, ?_⟩
    · intro hle
      unfold sessionStore.Validate
      rw [hget]
      simp only [h1, hne, if_false]
      have : ¬ now' > now + 86400 * 1000000000 := not_lt.mpr hle
      simp only [this, if_false]
    · intro hlt
      unfold sessionStore.Validate
      rw [hget]
      simp only [h1, hne, if_false]
      have : now' > now + 86400 * 1000000000 := hlt
      simp only [this, if_true]
  · intro s token now
    by_cases h0 : token = ""
    · simp [sessionStore.Validate, h0]
    · unfold sessionStore.Validate
      simp [h0, sessionStore.get_Remove s token token h0]
  · intro s token exp now hne hget hlt
    have hv : s.Validate token now = (s.Remove token, false) := by
      unfold sessionStore.Validate
      simp [hne, hget, hlt]
    rw [hv]
    refine ⟨rfl, ?_, ?_⟩
    · simp [sessionStore.get_Remove s _ _ hne]
    · intro other ho
      simp [sessionStore.get_Remove s _ _ hne, ho]

/-- Witness for C10: the fallback token, registered with expiry 10 next to another
token, is validated at time 11. -/
theorem session_lifecycle_witness :
    (sessionStore.Validate ⟨[("fallback-token", ⟨10⟩), ("other", ⟨5⟩)]⟩ "fallback-token" 11).2 =
        false ∧
      (sessionStore.Validate ⟨[("fallback-token", ⟨10⟩), ("other", ⟨5⟩)]⟩
        "fallback-token" 11).1.get "fallback-token" = none ∧
      ∀ other, other ≠ "fallback-token" →
        (sessionStore.Validate ⟨[("fallback-token", ⟨10⟩), ("other", ⟨5⟩)]⟩
          "fallback-token" 11).1.get other =
        sessionStore.get ⟨[("fallback-token", ⟨10⟩), ("other", ⟨5⟩)]⟩ other :=
  session_lifecycle.2.2.2 ⟨[("fallback-token", ⟨10⟩), ("other", ⟨5⟩)]⟩ "fallback-token" 10 11
    (by decide) rfl (by decide)

/-! ## Login -/

/-- Joining the elements of a path gives the path back. -/
theorem joinSlash_splitSlash : ∀ (l cur : List Char), joinSlash (splitSlash l cur) = cur ++ l := by
  intro l
  induction l with
  | nil => intro cur; simp [splitSlash, joinSlash]
  | cons c t ih =>
    intro cur
    unfold splitSlash
    by_cases hc : c.toNat = 47
    · have hc' : c = Char.ofNat 47 := by
        rw [← Char.ofNat_toNat c, hc]
      simp only [hc, if_true]
      rw [joinSlash_cons (splitSlash_ne_nil _ _), ih, hc']
      simp
    · simp only [hc, if_false]
      rw [ih]
      simp

theorem Clean.step_name (rooted : Bool) (stack : List (List Char)) {el : List Char}
    (h : isName el = true) : Clean.step rooted stack el = el :: stack := by
  simp only [isName, Bool.and_eq_true, decide_eq_true_eq] at h
  obtain ⟨⟨⟨h1, h2⟩, h3⟩, _⟩ := h
  simp [Clean.step, h1, h2, h3]

theorem Clean.foldl_names (rooted : Bool) : ∀ (els stack : List (List Char)),
    (∀ el ∈ els, isName el = true) →
    els.foldl (Clean.step rooted) stack = els.reverse ++ stack := by
  intro els
  induction els with
  | nil => intro stack _; rfl
  | cons e t ih =>
    intro stack h
    rw [List.foldl_cons, Clean.step_name rooted stack (h e (List.mem_cons_self _ _)),
      ih _ (fun x hx => h x (List.mem_cons_of_mem _ hx))]
    simp

theorem hexEscapeNonASCII_ascii (s : String) (h : ∀ c ∈ s.data, c.toNat < 0x80) :
    hexEscapeNonASCII s = s := by
  unfold hexEscapeNonASCII
  apply String.ext
  simp only
  have : ∀ l : List Char, (∀ c ∈ l, c.toNat < 0x80) →
      l.flatMap (fun c =>
        if c.toNat < 0x80 then [c]
        else (utf8Bytes c).flatMap (fun b =>
          [Char.ofNat 37, lowerhex.data.getD (b / 16) (Char.ofNat 48),
            lowerhex.data.getD (b % 16) (Char.ofNat 48)])) = l := by
    intro l
    induction l with
    | nil => intro _; rfl
    | cons c t ih =>
      intro hl
      rw [List.flatMap_cons, ih (fun x hx => hl x (List.mem_cons_of_mem _ hx))]
      simp [hl c (List.mem_cons_self _ _)]
  exact this _ h

theorem joinSlash_names_chars : ∀ (els : List (List Char)), (∀ el ∈ els, isName el = true) →
    ∀ c ∈ joinSlash els, 0x20 ≤ c.toNat ∧ c.toNat < 0x7F ∧ c.toNat ≠ 63 ∧ c.toNat ≠ 37 ∧
      c.toNat ≠ 35 := by
  intro els
  induction els with
  | nil => intro _ c hc; simp [joinSlash] at hc
  | cons e t ih =>
    intro h c hc
    have he := h e (List.mem_cons_self _ _)
    simp only [isName, Bool.and_eq_true, decide_eq_true_eq, List.all_eq_true] at he
    have hchars := he.2
    cases t with
    | nil =>
      simp only [joinSlash] at hc
      have := hchars c hc
      simp only [Bool.and_eq_true, decide_eq_true_eq, bne_iff_ne, ne_eq] at this
      tauto
    | cons a t' =>
      rw [joinSlash_cons (by simp)] at hc
      simp only [List.mem_append, List.mem_cons] at hc
      rcases hc with hc | hc | hc
      · have := hchars c hc
        simp only [Bool.and_eq_true, decide_eq_true_eq, bne_iff_ne, ne_eq] at this
        tauto
      · subst hc; decide
      · exact ih (fun x hx => h x (List.mem_cons_of_mem _ hx)) c hc

theorem joinSlash_names_getLast : ∀ (els : List (List Char)), els ≠ [] →
    (∀ el ∈ els, isName el = true) → (joinSlash els).getLast? ≠ some (Char.ofNat 47) := by
  intro els
  induction els with
  | nil => intro h; exact absurd rfl h
  | cons e t ih =>
    intro _ h
    have he := h e (List.mem_cons_self _ _)
    simp only [isName, Bool.and_eq_true, decide_eq_true_eq, List.all_eq_true] at he
    cases t with
    | nil =>
      simp only [joinSlash]
      intro hl
      have hmem := List.mem_of_getLast?_eq_some hl
      have := he.2 _ hmem
      revert this
      decide
    | cons a t' =>
      rw [joinSlash_cons (by simp)]
      have := ih (by simp) (fun x hx => h x (List.mem_cons_of_mem _ hx))
      intro hl
      apply this
      have hne : joinSlash (a :: t') ≠ [] := by
        intro hnil
        have ha := h a (List.mem_cons_of_mem _ (List.mem_cons_self _ _))
        cases t' with
        | nil => simp [joinSlash] at hnil; simp [hnil, isName] at ha
        | cons b t2 => rw [joinSlash_cons (by simp)] at hnil; simp at hnil
      rw [← hl]
      rw [show e ++ Char.ofNat 47 :: joinSlash (a :: t') =
        (e ++ [Char.ofNat 47]) ++ joinSlash (a :: t') by simp]
      rw [List.getLast?_append_of_ne_nil _ hne]

theorem takeWhile_all {α : Type} (p : α → Bool) : ∀ l : List α, (∀ x ∈ l, p x = true) →
    l.takeWhile p = l ∧ l.dropWhile p = [] := by
  intro l
  induction l with
  | nil => intro _; exact ⟨rfl, rfl⟩
  | cons a t ih =>
    intro h
    have ha := h a (List.mem_cons_self _ _)
    obtain ⟨h1, h2⟩ := ih (fun x hx => h x (List.mem_cons_of_mem _ hx))
    simp [List.takeWhile_cons, List.dropWhile_cons, ha, h1, h2]

/-- For a clean target `http.Redirect` writes the target itself as `Location`. -/
theorem redirectLocation_cleanTarget {url : String} (h : cleanTarget url = true) :
    redirectLocation url = some url := by
  obtain ⟨l⟩ := url
  cases l with
  | nil => simp [cleanTarget] at h
  | cons c rest =>
    simp only [cleanTarget, Bool.and_eq_true, decide_eq_true_eq, List.all_eq_true] at h
    obtain ⟨hc, hnames⟩ := h
    have hc' : c = Char.ofNat 47 := by rw [← Char.ofNat_toNat c, hc]
    subst hc'
    have hjoin : joinSlash (splitSlash rest []) = rest := by
      simpa using joinSlash_splitSlash rest []
    have hchars := joinSlash_names_chars _ hnames
    rw [hjoin] at hchars
    have hlast := joinSlash_names_getLast _ (splitSlash_ne_nil rest []) hnames
    rw [hjoin] at hlast
    have hhead : rest.head? ≠ some (Char.ofNat 47) := by
      cases rest with
      | nil => simp
      | cons d t =>
        intro hd
        simp only [List.head?_cons, Option.some.injEq] at hd
        subst hd
        have := hnames [] (by simp [splitSlash])
        simp [isName] at this
    have hq : ∀ x ∈ (Char.ofNat 47 :: rest), (fun c : Char => decide (c.toNat ≠ 63)) x = true := by
      intro x hx
      rcases List.mem_cons.mp hx with rfl | hx
      · decide
      · simpa using (hchars x hx).2.2.1
    obtain ⟨htake, hdrop⟩ := takeWhile_all _ _ hq
    have hclean : Clean (String.mk (Char.ofNat 47 :: rest)) = String.mk (Char.ofNat 47 :: rest) := by
      unfold Clean Clean.kept
      have hne : (String.mk (Char.ofNat 47 :: rest)) ≠ "" := by
        intro e; have := congrArg String.data e; simp at this
      simp only [hne, if_false, List.head?_cons, decide_True, if_true]
      have hsplit : splitSlash (Char.ofNat 47 :: rest) [] = [] :: splitSlash rest [] := by
        simp [splitSlash]
      rw [hsplit, List.foldl_cons]
      have hstep : Clean.step true [] [] = [] := by simp [Clean.step]
      rw [hstep, Clean.foldl_names true _ _ hnames]
      simp [hjoin]
    have hlocal : localTarget (String.mk (Char.ofNat 47 :: rest)) = true := by
      simp only [localTarget, Bool.and_eq_true, Bool.not_eq_true', List.all_eq_true, htake]
      refine ⟨⟨⟨?_, ?_⟩, ?_⟩, ?_⟩
      · simp [HasPrefix]
      · cases rest with
        | nil => simp [HasPrefix]
        | cons d t =>
          have : d ≠ Char.ofNat 47 := by simpa using hhead
          have this2 : ¬ Char.ofNat 47 = d := fun e => this e.symm
          simpa [HasPrefix] using this2
      · intro x hx
        rcases List.mem_cons.mp hx with rfl | hx
        · decide
        · have := hchars x hx
          simp only [Bool.and_eq_true, decide_eq_true_eq, bne_iff_ne, ne_eq]
          omega
      · intro x hx
        rcases List.mem_cons.mp hx with rfl | hx
        · decide
        · simpa using (hchars x hx).2.2.2.1
    have hrc : Redirect.clean (String.mk (Char.ofNat 47 :: rest)) =
        String.mk (Char.ofNat 47 :: rest) := by
      unfold Redirect.clean
      simp only [htake, hdrop, hclean, List.append_nil]
      have hl : (Char.ofNat 47 :: rest).getLast? ≠ some (Char.ofNat 47) := by
        cases rest with
        | nil =>
          have := hnames [] (by simp [splitSlash])
          simp [isName] at this
        | cons d t =>
          rw [List.getLast?_cons_cons]
          exact hlast
      simp [hl]
    unfold redirectLocation
    rw [hlocal, if_pos rfl, hrc, hexEscapeNonASCII_ascii]
    intro x hx
    rcases List.mem_cons.mp hx with rfl | hx
    · decide
    · have := hchars x hx
      omega

theorem cleanTarget_HasPrefix {url : String} (h : cleanTarget url = true) :
    HasPrefix url "/" = true := by
  obtain ⟨l⟩ := url
  cases l with
  | nil => simp [cleanTarget] at h
  | cons c rest =>
    simp only [cleanTarget, Bool.and_eq_true, decide_eq_true_eq] at h
    have hc' : c = Char.ofNat 47 := by rw [← Char.ofNat_toNat c, h.1]
    subst hc'
    simp [HasPrefix]

theorem localTarget_HasPrefix {url : String} (h : localTarget url = true) :
    HasPrefix url "/" = true := by
  simp only [localTarget, Bool.and_eq_true] at h
  exact h.1.1.1

/-- C11, as stated, fails, twice.  It is not true that every login request whose
password equals the configured admin password gets a session and a 302 redirect:
a request whose form data does not parse (`ParseForm` returns an error, as for the
body `password=secret&next=%zz`, of which `password` still decodes) is answered
with the login page and the error "Invalid form data", whatever its password.
And the target of the redirect is not always the submitted `next` value: for
`next=/a/../b` the `Location` that `http.Redirect` writes is `/b`. -/
theorem login_bad_form_correct_password :
    (¬ ∀ (env : Env) (s : Server) (r : Request),
      r.FormValue "password" = s.cfg.AdminPassword →
      (handleLogin env s r).1.sessions = (s.sessions.Create env.tokenRand env.sessionNow).1 ∧
      (handleLogin env s r).2.Status = 302) ∧
    (¬ ∀ (env : Env) (s : Server) (r : Request),
      r.ParseFormErr = false → r.FormValue "password" = s.cfg.AdminPassword →
      HasPrefix (r.FormValue "next") "/" = true →
      (handleLogin env s r).2.Location = some (r.FormValue "next")) := by
  constructor
  · intro h
    have h1 := h ⟨healthy, fun _ => none, none, 50, 100, 7, 7, fun _ => "", Char.toLower⟩
      ⟨⟨":8080", "secret", "content"⟩, ⟨[]⟩, ⟨[]⟩⟩
      ⟨⟨"/login", "", false⟩, "", [], true, [("password", "secret")], []⟩ rfl
    have h2 := h1.2
    revert h2
    decide
  · intro h
    have h1 := h ⟨healthy, fun _ => none, none, 50, 100, 7, 7, fun _ => "", Char.toLower⟩
      ⟨⟨":8080", "secret", "content"⟩, ⟨[]⟩, ⟨[]⟩⟩
      ⟨⟨"/login", "", false⟩, "", [], false, [("password", "secret"), ("next", "/a/../b")], []⟩
      rfl rfl rfl
    have h2 : (handleLogin ⟨healthy, fun _ => none, none, 50, 100, 7, 7, fun _ => "", Char.toLower⟩
        ⟨⟨":8080", "secret", "content"⟩, ⟨[]⟩, ⟨[]⟩⟩
        ⟨⟨"/login", "", false⟩, "", [], false, [("password", "secret"), ("next", "/a/../b")],
          []⟩).2.Location = some "/b" := rfl
    rw [h2] at h1
    revert h1
    decide

/-- C11, amended: for every login request whose form data parses and whose
password equals the configured admin password, `handleLogin` registers the token
of `newToken` with expiry now plus 24 hours, sets the session cookie with that
token and expiry, and answers with status 302 through `http.Redirect`, to which
it passes the submitted `next` value if it starts with "/" and "/admin"
otherwise (also when `next` is empty).  The `Location` written is "/admin" in
the second case; for a `next` within the site it is `next` with its path cleaned
by `path.Clean` and its non-ASCII bytes escaped, so `next` itself when `next` is
a clean path.  For every request whose form data does not parse or whose
password is different, the server state is unchanged, no cookie is set and no
redirect is issued (the login page is rendered). -/
theorem handleLogin_spec (env : Env) (s : Server) (r : Request) :
    (r.ParseFormErr = false → r.FormValue "password" = s.cfg.AdminPassword →
      (handleLogin env s r).1 =
        { s with sessions := (s.sessions.Create env.tokenRand env.sessionNow).1 } ∧
      (handleLogin env s r).1.sessions.get (newToken env.tokenRand) =
        some ⟨env.sessionNow + 86400 * 1000000000⟩ ∧
      (handleLogin env s r).2.Cookies =
        [{ Name := sessionCookieName, Value := newToken env.tokenRand, Path := "/",
           HttpOnly := true, SameSiteStrict := true,
           Expires := env.sessionNow + 86400 * 1000000000 }] ∧
      (handleLogin env s r).2.Status = 302 ∧
      (handleLogin env s r).2.RedirectURL =
        some (if HasPrefix (r.FormValue "next") "/" then r.FormValue "next" else "/admin") ∧
      (HasPrefix (r.FormValue "next") "/" = false →
        (handleLogin env s r).2.Location = some "/admin") ∧
      (localTarget (r.FormValue "next") = true →
        (handleLogin env s r).2.Location =
          some (hexEscapeNonASCII (Redirect.clean (r.FormValue "next")))) ∧
      (cleanTarget (r.FormValue "next") = true →
        (handleLogin env s r).2.Location = some (r.FormValue "next"))) ∧
    ((r.ParseFormErr = true ∨ r.FormValue "password" ≠ s.cfg.AdminPassword) →
      (handleLogin env s r).1 = s ∧ (handleLogin env s r).2.RedirectURL = none ∧
      (handleLogin env s r).2.Status = 200 ∧ (handleLogin env s r).2.Cookies = []) := by
  constructor
  · intro hp hpw
    have hnext : (if r.FormValue "next" = "" then "/admin"
          else if (!HasPrefix (r.FormValue "next") "/") = true then "/admin"
          else r.FormValue "next") =
        (if HasPrefix (r.FormValue "next") "/" then r.FormValue "next" else "/admin") := by
      by_cases h0 : r.FormValue "next" = ""
      · rw [h0]; rfl
      · cases hh : HasPrefix (r.FormValue "next") "/" <;> simp [h0, hh]
    have hL : handleLogin env s r =
        ({ s with sessions := (s.sessions.Create env.tokenRand env.sessionNow).1 },
          SetCookie ⟨sessionCookieName, newToken env.tokenRand, "/", true, true,
              env.sessionNow + 86400 * 1000000000⟩
            (Redirect (if HasPrefix (r.FormValue "next") "/" then r.FormValue "next"
              else "/admin") 302)) := by
      rw [← sessionTTL_eq]
      simp only [handleLogin, hp, hpw, setSession, sessionStore.Create,
        Bool.false_eq_true, if_false, ne_eq, not_true_eq_false, hnext]
    rw [hL]
    refine ⟨rfl, ?_, rfl, rfl, rfl, ?_, ?_, ?_⟩
    · rw [← sessionTTL_eq]
      simp [sessionStore.Create, sessionStore.get, assocGet_assocSet]
    · intro hh
      simp only [hh, Bool.false_eq_true, if_false]
      rfl
    · intro hl
      simp only [localTarget_HasPrefix hl, if_true]
      simp [Response.Location, SetCookie, Redirect, redirectLocation, hl]
    · intro hc
      simp only [cleanTarget_HasPrefix hc, if_true]
      simp [Response.Location, SetCookie, Redirect, redirectLocation_cleanTarget hc]
  · rintro (hp | hpw)
    · simp [handleLogin, hp, renderTemplate]
    · cases hp : r.ParseFormErr <;> simp [handleLogin, hp, hpw, renderTemplate]

/-- Witness for C11: a login with the right password and `next=/admin/library`. -/
theorem handleLogin_spec_witness :
    (handleLogin ⟨healthy, fun _ => none, none, 50, 100, 7, 7, fun _ => "", Char.toLower⟩ ⟨⟨":8080", "secret", "content"⟩, ⟨[]⟩, ⟨[]⟩⟩
        ⟨⟨"/login", "", false⟩, "", [], false,
          [("password", "secret"), ("next", "/admin/library")], []⟩).2.Status = 302 ∧
      (handleLogin ⟨healthy, fun _ => none, none, 50, 100, 7, 7, fun _ => "", Char.toLower⟩ ⟨⟨":8080", "secret", "content"⟩, ⟨[]⟩, ⟨[]⟩⟩
        ⟨⟨"/login", "", false⟩, "", [], false,
          [("password", "secret"), ("next", "/admin/library")], []⟩).2.RedirectURL =
        some "/admin/library" ∧
      (handleLogin ⟨healthy, fun _ => none, none, 50, 100, 7, 7, fun _ => "", Char.toLower⟩ ⟨⟨":8080", "secret", "content"⟩, ⟨[]⟩, ⟨[]⟩⟩
        ⟨⟨"/login", "", false⟩, "", [], false,
          [("password", "secret"), ("next", "/admin/library")], []⟩).2.Location =
        some "/admin/library" :=
  have h := (handleLogin_spec ⟨healthy, fun _ => none, none, 50, 100, 7, 7, fun _ => "", Char.toLower⟩ ⟨⟨":8080", "secret", "content"⟩, ⟨[]⟩, ⟨[]⟩⟩
        ⟨⟨"/login", "", false⟩, "", [], false,
          [("password", "secret"), ("next", "/admin/library")], []⟩).1 rfl rfl
  ⟨h.2.2.2.1, h.2.2.2.2.1, h.2.2.2.2.2.2.2 rfl⟩

/-! ## Library search -/

theorem rdropWhile_cons {α : Type} [DecidableEq α] (p : α → Bool) (a : α) (x : List α) :
    (a :: x).rdropWhile p =
      if x.rdropWhile p = [] then (if p a then [] else [a]) else a :: x.rdropWhile p := by
  induction x using List.reverseRecOn generalizing a with
  | nil => simp [List.rdropWhile_singleton]
  | append_singleton y b ih =>
    have hc : a :: (y ++ [b]) = (a :: y) ++ [b] := rfl
    by_cases hb : p b = true
    · rw [List.rdropWhile_concat_pos _ _ _ hb, hc, List.rdropWhile_concat_pos _ _ _ hb]
      exact ih a
    · rw [List.rdropWhile_concat_neg _ _ _ hb, hc, List.rdropWhile_concat_neg _ _ _ hb]
      simp

theorem dropWhile_rdropWhile_comm {α : Type} [DecidableEq α] (p : α → Bool) : ∀ y : List α,
    (y.rdropWhile p).dropWhile p = (y.dropWhile p).rdropWhile p := by
  intro y
  induction y with
  | nil => simp
  | cons a t ih =>
    rw [rdropWhile_cons]
    by_cases ha : p a = true
    · rw [List.dropWhile_cons_of_pos ha, ← ih]
      by_cases he : t.rdropWhile p = []
      · simp [he, ha]
      · simp [he, ha]
    · rw [List.dropWhile_cons_of_neg ha, rdropWhile_cons]
      by_cases he : t.rdropWhile p = []
      · simp [he, ha]
      · simp [he, ha]

theorem TrimSpace_idem (s : String) : TrimSpace (TrimSpace s) = TrimSpace s := by
  unfold TrimSpace
  simp only
  rw [dropWhile_rdropWhile_comm, List.dropWhile_idempotent, List.rdropWhile_idempotent]

theorem Contains_empty (s : String) : Contains s "" = true := by
  simp [Contains]

theorem ToLower_eq_empty (lower : Char → Char) (s : String) :
    ToLower lower s = "" ↔ s = "" := by
  constructor
  · intro h
    have h2 := congrArg String.data h
    simp only [ToLower] at h2
    apply String.ext
    simpa using h2
  · intro h; rw [h]; rfl

theorem buildEntryList.loop_eq (env : Env) (term : String) : ∀ entries : List Entry,
    buildEntryList.loop env (ToLower env.lower term) entries =
      (entries.filter (matchesTerm env.lower term)).map (buildEntryList.item env) := by
  intro entries
  induction entries with
  | nil => rfl
  | cons e rest ih =>
    unfold buildEntryList.loop
    by_cases hm : matchesTerm env.lower term e = true
    · have hcond : ¬ (ToLower env.lower term ≠ "" ∧
          (!Contains (ToLower env.lower e.Slug) (ToLower env.lower term) &&
            !Contains (ToLower env.lower e.Raw) (ToLower env.lower term) &&
            !Contains (ToLower env.lower e.Description) (ToLower env.lower term)) = true) := by
        rintro ⟨_, h⟩
        simp only [matchesTerm, containsFold, Bool.or_eq_true] at hm
        simp only [Bool.and_eq_true, Bool.not_eq_true'] at h
        rcases hm with (hm | hm) | hm
        · rw [h.1.1] at hm; cases hm
        · rw [h.1.2] at hm; cases hm
        · rw [h.2] at hm; cases hm
      rw [if_neg hcond, ih, List.filter_cons_of_pos hm, List.map_cons]
    · have hne : ToLower env.lower term ≠ "" := by
        intro h0
        apply hm
        simp [matchesTerm, containsFold, h0, Contains_empty]
      have hcond : (ToLower env.lower term ≠ "" ∧
          (!Contains (ToLower env.lower e.Slug) (ToLower env.lower term) &&
            !Contains (ToLower env.lower e.Raw) (ToLower env.lower term) &&
            !Contains (ToLower env.lower e.Description) (ToLower env.lower term)) = true) := by
        refine ⟨hne, ?_⟩
        simp only [matchesTerm, containsFold, Bool.or_eq_true, not_or, Bool.not_eq_true] at hm
        simp [hm.1.1, hm.1.2, hm.2]
      rw [if_pos hcond, ih, List.filter_cons_of_neg hm]

theorem matchesTerm_empty (lower : Char → Char) (e : Entry) : matchesTerm lower "" e = true := by
  simp [matchesTerm, containsFold, ToLower, Contains]

/-- C12: for every list of entries that `Store.List` returns and every search term,
`buildEntryList` returns, in list order, the items of exactly the entries whose
identifier, raw content or description contains the trimmed term
case-insensitively (both sides lowered with `strings.ToLower`), together with the
number of listed entries; for a term that is empty after trimming it returns all
entries; an error of `Store.List` is passed on; and `showLibrary` reports the
number of items as `FilteredCount` and the total as `TotalEntries`, which are equal
for the empty term. -/
theorem buildEntryList_spec (env : Env) (s : Server) (term : String) :
    (∀ entries, Store.List env.faults s.store = Except.ok entries →
      buildEntryList env s term =
        Except.ok ((entries.filter (matchesTerm env.lower (TrimSpace term))).map
          (buildEntryList.item env), entries.length) ∧
      ((entries.filter (matchesTerm env.lower (TrimSpace term))).map
          (buildEntryList.item env)).map (fun item => item.Slug) =
        (entries.filter (matchesTerm env.lower (TrimSpace term))).map (fun e => e.Slug) ∧
      (TrimSpace term = "" →
        buildEntryList env s term =
          Except.ok (entries.map (buildEntryList.item env), entries.length))) ∧
    (∀ err, Store.List env.faults s.store = Except.error err →
      buildEntryList env s term = Except.error err) ∧
    (∀ (r : Request) (entries : List Entry),
      Store.List env.faults s.store = Except.ok entries →
      ∃ data, (showLibrary env s r).2 = renderTemplate "library.tmpl" (View.library data) ∧
        data.Entries = (entries.filter (matchesTerm env.lower
          (TrimSpace ((assocGet "q" r.Query).getD "")))).map (buildEntryList.item env) ∧
        data.TotalEntries = entries.length ∧ data.FilteredCount = data.Entries.length ∧
        (TrimSpace ((assocGet "q" r.Query).getD "") = "" →
          data.FilteredCount = data.TotalEntries)) := by
  have hb : ∀ t entries, Store.List env.faults s.store = Except.ok entries →
      buildEntryList env s t =
        Except.ok ((entries.filter (matchesTerm env.lower (TrimSpace t))).map
          (buildEntryList.item env), entries.length) := by
    intro t entries hl
    simp only [buildEntryList, hl, buildEntryList.loop_eq]
  have hall : ∀ entries : List Entry, entries.filter (matchesTerm env.lower "") = entries := by
    intro entries
    apply List.filter_eq_self.mpr
    intro e _
    exact matchesTerm_empty _ e
  refine ⟨?_, ?_, ?_⟩
  · intro entries hl
    refine ⟨hb term entries hl, ?_, ?_⟩
    · simp [buildEntryList.item, List.map_map, Function.comp]
    · intro h0
      rw [hb term entries hl, h0, hall]
  · intro err hl
    simp only [buildEntryList, hl]
  · intro r entries hl
    have hbl := hb (TrimSpace ((assocGet "q" r.Query).getD "")) entries hl
    rw [TrimSpace_idem] at hbl
    refine ⟨⟨"Content Library", (entries.filter (matchesTerm env.lower
        (TrimSpace ((assocGet "q" r.Query).getD "")))).map (buildEntryList.item env),
      TrimSpace ((assocGet "q" r.Query).getD ""), entries.length,
      ((entries.filter (matchesTerm env.lower
        (TrimSpace ((assocGet "q" r.Query).getD "")))).map (buildEntryList.item env)).length,
      decide (TrimSpace ((assocGet "q" r.Query).getD "") ≠ "")⟩, ?_, rfl, rfl, rfl, ?_⟩
    · simp only [showLibrary, hbl]
    · intro h0
      simp only [h0, hall, List.length_map]

/-- Witness for C12: a store of two entries searched for " ALPHA ", which only
the description of "entry" contains. -/
theorem buildEntryList_spec_witness :
    buildEntryList ⟨healthy, fun _ => none, none, 50, 100, 7, 7, fun _ => "", Char.toLower⟩
        ⟨⟨":8080", "secret", "content"⟩,
          ⟨[("aaaaaaaa.json", FileData.json ⟨"aaaaaaaa", "html", "<p>second</p>", "beta", 9, 9⟩),
            ("entry.json", FileData.json ⟨"entry", "markdown", "first", "Alpha", 3, 3⟩)]⟩,
          ⟨[]⟩⟩ " ALPHA " =
      Except.ok ([⟨"entry", "markdown", "Alpha", "", "", false⟩], 2) := by
  have hle : "aaaaaaaa.json" ≤ "entry.json" := by
    rw [String.le_iff_toList_le]
    decide
  have hn : FS.names
      ⟨[("aaaaaaaa.json", FileData.json ⟨"aaaaaaaa", "html", "<p>second</p>", "beta", 9, 9⟩),
        ("entry.json", FileData.json ⟨"entry", "markdown", "first", "Alpha", 3, 3⟩)]⟩ =
      ["aaaaaaaa.json", "entry.json"] := by
    have hd : (List.map Prod.fst
        [("aaaaaaaa.json", FileData.json ⟨"aaaaaaaa", "html", "<p>second</p>", "beta", 9, 9⟩),
          ("entry.json", FileData.json ⟨"entry", "markdown", "first", "Alpha", 3, 3⟩)]).dedup =
        ["aaaaaaaa.json", "entry.json"] := rfl
    unfold FS.names
    rw [hd]
    simp [List.insertionSort, List.orderedInsert, hle]
  have hl : Store.List healthy
      ⟨[("aaaaaaaa.json", FileData.json ⟨"aaaaaaaa", "html", "<p>second</p>", "beta", 9, 9⟩),
        ("entry.json", FileData.json ⟨"entry", "markdown", "first", "Alpha", 3, 3⟩)]⟩ =
      Except.ok [⟨"aaaaaaaa", "html", "<p>second</p>", "beta", 9, 9⟩,
        ⟨"entry", "markdown", "first", "Alpha", 3, 3⟩] := by
    unfold Store.List ReadDir
    rw [hn]
    rfl
  exact ((buildEntryList_spec
    ⟨healthy, fun _ => none, none, 50, 100, 7, 7, fun _ => "", Char.toLower⟩
    ⟨⟨":8080", "secret", "content"⟩,
      ⟨[("aaaaaaaa.json", FileData.json ⟨"aaaaaaaa", "html", "<p>second</p>", "beta", 9, 9⟩),
        ("entry.json", FileData.json ⟨"entry", "markdown", "first", "Alpha", 3, 3⟩)]⟩,
      ⟨[]⟩⟩ " ALPHA ").1 _ hl).1

/-! ## Summaries -/

theorem Join_cons_data (w : String) (ws : List String) (sep : String) :
    (Join (w :: ws) sep).data =
      w.data ++ (if ws = [] then [] else sep.data ++ (Join ws sep).data) := by
  cases ws with
  | nil => simp [Join]
  | cons v vs => simp [Join, String.data_append]

theorem Fields.scan_ne_empty : ∀ (l cur : List Char) (w : String),
    w ∈ Fields.scan l cur → w.data ≠ [] := by
  intro l
  induction l with
  | nil =>
    intro cur w hw
    unfold Fields.scan at hw
    by_cases hc : cur = []
    · simp [hc] at hw
    · simp only [hc, if_false, List.mem_singleton] at hw
      rw [hw]; exact hc
  | cons c cs ih =>
    intro cur w hw
    unfold Fields.scan at hw
    by_cases hs : isSpace c = true
    · by_cases hc : cur = []
      · simp only [hs, hc, if_true] at hw
        exact ih [] w hw
      · simp only [hs, hc, if_true, if_false, List.mem_cons] at hw
        rcases hw with hw | hw
        · rw [hw]; exact hc
        · exact ih [] w hw
    · simp only [hs, if_false] at hw
      exact ih _ w hw

theorem Join_data_eq_nil {ws : List String} {sep : String} (hne : ∀ w ∈ ws, w.data ≠ [])
    (h : (Join ws sep).data = []) : ws = [] := by
  cases ws with
  | nil => rfl
  | cons w rest =>
    rw [Join_cons_data] at h
    have := hne w (List.mem_cons_self _ _)
    simp [this] at h

theorem isSpace_space : isSpace (Char.ofNat 32) = true := by decide

theorem Fields.scan_collapse : ∀ l : List Char,
    (collapseRuns true l).rdropWhile isSpace = (Join (Fields.scan l []) " ").data ∧
    ∀ cur : List Char, cur ≠ [] →
      (Join (Fields.scan l cur) " ").data = cur ++ (collapseRuns false l).rdropWhile isSpace := by
  intro l
  induction l with
  | nil =>
    constructor
    · simp [collapseRuns, Fields.scan, Join]
    · intro cur hc
      simp [collapseRuns, Fields.scan, Join, hc]
  | cons c cs ih =>
    obtain ⟨ihP, ihQ⟩ := ih
    by_cases hs : isSpace c = true
    · constructor
      · simp only [collapseRuns, Fields.scan, hs, if_true]
        exact ihP
      · intro cur hc
        simp only [collapseRuns, Fields.scan, hs, hc, if_true, if_false, Bool.false_eq_true]
        rw [Join_cons_data, rdropWhile_cons, ihP]
        by_cases he : Fields.scan cs [] = []
        · simp [he, Join, isSpace_space]
        · have hj : (Join (Fields.scan cs []) " ").data ≠ [] :=
            fun h => he (Join_data_eq_nil (Fields.scan_ne_empty cs []) h)
          simp only [he, hj, if_false]
          rfl
    · constructor
      · simp only [collapseRuns, Fields.scan, hs, if_false, Bool.false_eq_true, List.nil_append]
        rw [rdropWhile_cons, ihQ [c] (by simp)]
        by_cases he : (collapseRuns false cs).rdropWhile isSpace = []
        · simp [he, hs]
        · simp [he]
      · intro cur hc
        simp only [collapseRuns, Fields.scan, hs, if_false, Bool.false_eq_true]
        rw [rdropWhile_cons, ihQ (cur ++ [c]) (by simp)]
        by_cases he : (collapseRuns false cs).rdropWhile isSpace = []
        · simp [he, hs]
        · simp [he]

theorem Fields.scan_dropWhile : ∀ l : List Char,
    Fields.scan (l.dropWhile isSpace) [] = Fields.scan l [] := by
  intro l
  induction l with
  | nil => rfl
  | cons c cs ih =>
    by_cases hs : isSpace c = true
    · rw [List.dropWhile_cons_of_pos hs, ih]
      simp [Fields.scan, hs]
    · rw [List.dropWhile_cons_of_neg hs]

theorem Fields.scan_concat_space (b : Char) (hb : isSpace b = true) : ∀ (y cur : List Char),
    Fields.scan (y ++ [b]) cur = Fields.scan y cur := by
  intro y
  induction y with
  | nil =>
    intro cur
    by_cases hc : cur = [] <;> simp [Fields.scan, hb, hc]
  | cons c cs ih =>
    intro cur
    have h1 : (c :: cs) ++ [b] = c :: (cs ++ [b]) := rfl
    rw [h1]
    unfold Fields.scan
    rw [ih, ih]

theorem Fields.scan_rdropWhile (l cur : List Char) :
    Fields.scan (l.rdropWhile isSpace) cur = Fields.scan l cur := by
  induction l using List.reverseRecOn with
  | nil => simp
  | append_singleton y b ih =>
    by_cases hb : isSpace b = true
    · rw [List.rdropWhile_concat_pos _ _ _ hb, ih, Fields.scan_concat_space b hb]
    · rw [List.rdropWhile_concat_neg _ _ _ hb]

theorem collapseRuns_true_dropWhile : ∀ l : List Char,
    (collapseRuns true l).dropWhile isSpace = collapseRuns true l := by
  intro l
  induction l with
  | nil => rfl
  | cons c cs ih =>
    by_cases hs : isSpace c = true
    · simp only [collapseRuns, hs, if_true]; exact ih
    · simp only [collapseRuns, hs, if_false, Bool.false_eq_true]
      rw [List.dropWhile_cons_of_neg hs]

theorem collapseRuns_false_dropWhile (l : List Char) :
    (collapseRuns false l).dropWhile isSpace = collapseRuns true l := by
  cases l with
  | nil => rfl
  | cons c cs =>
    by_cases hs : isSpace c = true
    · simp only [collapseRuns, hs, if_true, Bool.false_eq_true, if_false]
      rw [List.dropWhile_cons_of_pos isSpace_space, collapseRuns_true_dropWhile]
    · simp only [collapseRuns, hs, if_false, Bool.false_eq_true]
      rw [List.dropWhile_cons_of_neg hs]

/-- The code of `summarize` collapses white space as the specification words it. -/
theorem Join_Fields_eq_collapseSpaces (raw : String) :
    Join (Fields (TrimSpace raw)) " " = collapseSpaces raw := by
  apply String.ext
  unfold Fields TrimSpace collapseSpaces
  simp only [TrimSpace]
  rw [Fields.scan_rdropWhile, Fields.scan_dropWhile, ← (Fields.scan_collapse raw.data).1,
    collapseRuns_false_dropWhile]

/-- C13: for every entry whose description is empty after trimming, the description
of its library item is `summarize(raw, 140)`; `summarize` computes the raw content
with every run of white space collapsed to one space and leading and trailing
white space removed, returns it unchanged when it has at most `limit` characters
(code points) and otherwise returns its first `limit` characters followed by "…",
so the result has at most `limit + 1` characters: at most 141 in the library. -/
theorem summarize_spec (raw : String) (limit : Nat) :
    (∀ (env : Env) (entry : Entry), TrimSpace entry.Description = "" →
      (buildEntryList.item env entry).Description = summarize entry.Raw 140) ∧
    Join (Fields (TrimSpace raw)) " " = collapseSpaces raw ∧
    ((collapseSpaces raw).length ≤ limit → summarize raw limit = collapseSpaces raw) ∧
    (limit < (collapseSpaces raw).length →
      summarize raw limit = String.mk ((collapseSpaces raw).data.take limit) ++ "…" ∧
      (summarize raw limit).length = limit + 1) ∧
    (summarize raw limit).length ≤ limit + 1 ∧
    (summarize raw 140).length ≤ 141 := by
  have hJ := Join_Fields_eq_collapseSpaces raw
  have hsum : ∀ n, summarize raw n =
      if (collapseSpaces raw).length ≤ n then collapseSpaces raw
      else String.mk ((collapseSpaces raw).data.take n) ++ "…" := by
    intro n
    unfold summarize
    by_cases ht : TrimSpace raw = ""
    · have h0 : collapseSpaces raw = "" := by
        rw [← hJ, ht]; rfl
      simp [ht, h0]
    · simp only [ht, if_false, hJ]
      rfl
  have hdots : "…".length = 1 := by decide
  have hlen : ∀ n, (summarize raw n).length ≤ n + 1 := by
    intro n
    rw [hsum n]
    by_cases hle : (collapseSpaces raw).length ≤ n
    · simp only [hle, if_true]; omega
    · simp only [hle, if_false, String.length_append]
      have h1 : (String.mk ((collapseSpaces raw).data.take n)).length ≤ n := by
        show ((collapseSpaces raw).data.take n).length ≤ n
        simp
      omega
  refine ⟨?_, hJ, ?_, ?_, hlen limit, hlen 140⟩
  · intro env entry hd
    simp [buildEntryList.item, hd]
  · intro hle
    rw [hsum limit]; simp [hle]
  · intro hlt
    have hnle : ¬ (collapseSpaces raw).length ≤ limit := by omega
    rw [hsum limit]
    simp only [hnle, if_false, String.length_append, true_and]
    have h1 : (String.mk ((collapseSpaces raw).data.take limit)).length = limit := by
      show ((collapseSpaces raw).data.take limit).length = limit
      rw [List.length_take]
      exact Nat.min_eq_left (le_of_lt hlt)
    omega

/-- Witness for C13: a text of three words cut after three characters. -/
theorem summarize_spec_witness :
    summarize "  a \t b\n\nc  " 3 = "a b…" ∧ (summarize "  a \t b\n\nc  " 3).length = 3 + 1 :=
  (summarize_spec "  a \t b\n\nc  " 3).2.2.2.1 (by decide)

/-! ## Store errors in the handlers -/

/-- C14: the create and update handlers answer 400 for every store error.  An
update of an identifier without record (`ErrEntryNotFound`) is answered with 400,
not 404; a creation that fails on identifier allocation, or on a storage error
(here the temporary file cannot be opened), is answered with 400, not 500. -/
theorem create_update_errors_answer_400 :
    -- update of an identifier without record
    (Store.Update healthy 7 ⟨[]⟩ "nope" "markdown" "x" "" =
        (⟨[]⟩, Except.error Error.entryNotFound) ∧
      (updateEntry ⟨healthy, fun _ => none, none, 50, 100, 7, 7, fun _ => "", Char.toLower⟩
        ⟨⟨":8080", "secret", "content"⟩, ⟨[]⟩, ⟨[]⟩⟩
        ⟨⟨"/nope/edit", "", false⟩, "nope", [], false,
          [("renderer", "markdown"), ("content", "x")], []⟩).2.Status = 400) ∧
    -- creation with all five candidates in use
    ((Store.Create healthy (fun _ => none) 7 7
          ⟨[("entry.json", FileData.json ⟨"entry", "markdown", "a", "", 3, 3⟩)]⟩
          "markdown" "x" "").2 = Except.error Error.allocateSlug ∧
      (createEntry ⟨healthy, fun _ => none, none, 50, 100, 7, 7, fun _ => "", Char.toLower⟩
        ⟨⟨":8080", "secret", "content"⟩,
          ⟨[("entry.json", FileData.json ⟨"entry", "markdown", "a", "", 3, 3⟩)]⟩, ⟨[]⟩⟩
        ⟨⟨"/admin", "", false⟩, "", [], false,
          [("renderer", "markdown"), ("content", "x")], []⟩).2.Status = 400) ∧
    -- creation with a storage error
    ((Store.Create ⟨fun c => c == Syscall.OpenFile "entry.json.tmp", FileData.malformed⟩
          (fun _ => none) 7 7 ⟨[]⟩ "markdown" "x" "").2 = Except.error Error.openTempFile ∧
      (createEntry ⟨⟨fun c => c == Syscall.OpenFile "entry.json.tmp", FileData.malformed⟩,
          fun _ => none, none, 50, 100, 7, 7, fun _ => "", Char.toLower⟩
        ⟨⟨":8080", "secret", "content"⟩, ⟨[]⟩, ⟨[]⟩⟩
        ⟨⟨"/admin", "", false⟩, "", [], false,
          [("renderer", "markdown"), ("content", "x")], []⟩).2.Status = 400) :=
  ⟨⟨rfl, rfl⟩, ⟨rfl, rfl⟩, ⟨rfl, rfl⟩⟩

/-- Status of the three handlers on a store error: `createEntry` and `updateEntry`
answer 400 whatever the error, `deleteEntry` answers 404 for `ErrEntryNotFound`
and 500 for any other error. -/
theorem handlers_status (env : Env) (s : Server) (r : Request) :
    (∀ fs err, r.ParseFormErr = false →
      Store.Create env.faults env.rand env.now1 env.now2 s.store (r.FormValue "renderer")
        (r.FormValue "content") (r.FormValue "description") = (fs, Except.error err) →
      (createEntry env s r).2.Status = 400) ∧
    (∀ fs err, r.ParseFormErr = false →
      Store.Update env.faults env.now1 s.store r.PathSlug (r.FormValue "renderer")
        (r.FormValue "content") (r.FormValue "description") = (fs, Except.error err) →
      (updateEntry env s r).2.Status = 400) ∧
    (∀ fs err, r.PathSlug ≠ "" →
      Store.Delete env.faults s.store r.PathSlug = (fs, Except.error err) →
      (deleteEntry env s r).2.Status = if err = Error.entryNotFound then 404 else 500) := by
  refine ⟨?_, ?_, ?_⟩
  · intro fs err hp h
    simp [createEntry, hp, h, renderError]
  · intro fs err hp h
    simp [updateEntry, hp, h, renderError]
  · intro fs err hs h
    by_cases he : err = Error.entryNotFound
    · simp [deleteEntry, hs, h, he, renderError]
    · simp [deleteEntry, hs, h, he, renderError]

/-! ## Authentication gate -/

theorem unhex_upperhex : ∀ d : Fin 16,
    unhex (upperhex.data.getD d.val (Char.ofNat 48)) = some d.val := by
  decide

set_option maxRecDepth 100000 in
theorem plain_byte : ∀ b : Fin 256, b.val ≠ 32 → shouldEscape b.val = false →
    (Char.ofNat b.val).toNat ≠ 37 ∧ (Char.ofNat b.val).toNat ≠ 43 ∧
      utf8Bytes (Char.ofNat b.val) = [b.val] := by
  decide

theorem QueryUnescape_cons (c : Char) (rest : List Char) :
    QueryUnescape (c :: rest) =
      if c.toNat = 37 then
        match rest with
        | h1 :: h2 :: rest' =>
          match unhex h1, unhex h2, QueryUnescape rest' with
          | some a, some b, some bs => some ((a * 16 + b) :: bs)
          | _, _, _ => none
        | _ => none
      else if c.toNat = 43 then (QueryUnescape rest).map (fun bs => 32 :: bs)
      else (QueryUnescape rest).map (fun bs => utf8Bytes c ++ bs) := by
  conv_lhs => unfold QueryUnescape

theorem QueryUnescape_escapeByte (b : Nat) (hb : b < 256) (rest : List Char) :
    QueryUnescape (escapeByte b ++ rest) = (QueryUnescape rest).map (fun bs => b :: bs) := by
  unfold escapeByte
  by_cases h32 : b = 32
  · subst h32
    have h43 : (Char.ofNat 43).toNat = 43 := by decide
    simp only [if_true, List.singleton_append]
    rw [QueryUnescape_cons]
    simp [h43]
  · by_cases hs : shouldEscape b = true
    · simp only [h32, hs, if_true, if_false, List.cons_append, List.nil_append]
      have h1 := unhex_upperhex ⟨b / 16, by omega⟩
      have h2 := unhex_upperhex ⟨b % 16, by omega⟩
      simp only at h1 h2
      have h37 : (Char.ofNat 37).toNat = 37 := by decide
      rw [QueryUnescape_cons]
      simp only [h37, if_true, h1, h2]
      have hb' : b / 16 * 16 + b % 16 = b := by omega
      cases QueryUnescape rest with
      | none => rfl
      | some bs => simp [hb']
    · have hs' : shouldEscape b = false := by simpa using hs
      obtain ⟨p1, p2, p3⟩ := plain_byte ⟨b, hb⟩ h32 hs'
      simp only at p1 p2 p3
      simp only [h32, hs, if_false, List.cons_append, List.nil_append, Bool.false_eq_true]
      rw [QueryUnescape_cons]
      simp only [p1, p2, if_false, p3, List.singleton_append]

theorem QueryUnescape_escape : ∀ bs : List Nat, (∀ b ∈ bs, b < 256) →
    QueryUnescape (bs.flatMap escapeByte) = some bs := by
  intro bs
  induction bs with
  | nil => intro _; rfl
  | cons b rest ih =>
    intro h
    rw [List.flatMap_cons, QueryUnescape_escapeByte b (h b (List.mem_cons_self _ _)),
      ih (fun x hx => h x (List.mem_cons_of_mem _ hx))]
    rfl

theorem utf8Bytes_lt (c : Char) : ∀ b ∈ utf8Bytes c, b < 256 := by
  have hv : c.toNat < 1114112 := by
    have := c.valid
    unfold Char.toNat
    rcases this with h | ⟨_, h⟩
    · have : c.val.toNat < 55296 := h
      omega
    · exact h
  intro b hb
  unfold utf8Bytes at hb
  simp only at hb
  split_ifs at hb <;> simp at hb <;> omega

/-- The bytes `url.QueryUnescape` reads back from `url.QueryEscape` are the UTF-8
bytes of the escaped text. -/
theorem QueryUnescape_QueryEscape (s : String) :
    QueryUnescape (QueryEscape s).data = some (s.data.flatMap utf8Bytes) := by
  have h : (QueryEscape s).data = (s.data.flatMap utf8Bytes).flatMap escapeByte := by
    simp only [QueryEscape, List.flatMap_assoc]
  rw [h]
  apply QueryUnescape_escape
  intro b hb
  obtain ⟨c, _, hc⟩ := List.mem_flatMap.mp hb
  exact utf8Bytes_lt c b hc

theorem Validate_true_state (s : sessionStore) (token : String) (now : Time)
    (h : (s.Validate token now).2 = true) : (s.Validate token now).1 = s := by
  unfold sessionStore.Validate at h ⊢
  by_cases h0 : token = ""
  · simp [h0] at h
  · cases hg : s.get token with
    | none => simp [h0, hg] at h
    | some sess =>
      by_cases hlt : now > sess.expires
      · simp [h0, hg, hlt] at h
      · simp [h0, hlt]

/-- C15: for every wrapped handler and every request that carries no session cookie
or a cookie whose token fails `Validate` (as the empty, an unknown or an expired
token does), `requireAuth` answers, whatever the wrapped handler, with a 302
redirect to `/login?next=` followed by the query-escaped request URI (the requested
path with its query, which unescaping gives back), and leaves configuration and
store untouched; when the cookie's token is valid the result is that of the
wrapped handler; so the wrapped handler has an effect only when the token is
valid; and every admin-gated route is registered through `requireAuth`. -/
theorem requireAuth_spec (env : Env) (s : Server) (r : Request) :
    ((r.Cookie sessionCookieName = none ∨
        ∃ value, r.Cookie sessionCookieName = some value ∧
          (s.sessions.Validate value env.validateNow).2 = false) →
      ∀ next : HandlerFunc,
        (requireAuth next env s r).2 =
          Redirect ("/login?next=" ++ QueryEscape r.URL.RequestURI) 302 ∧
        (requireAuth next env s r).1.cfg = s.cfg ∧
        (requireAuth next env s r).1.store = s.store) ∧
    (∀ value, (value = "" ∨ s.sessions.get value = none ∨
        ∃ sess, s.sessions.get value = some sess ∧ sess.expires < env.validateNow) →
      (s.sessions.Validate value env.validateNow).2 = false) ∧
    QueryUnescape (QueryEscape r.URL.RequestURI).data =
      some (r.URL.RequestURI.data.flatMap utf8Bytes) ∧
    (∀ value, r.Cookie sessionCookieName = some value →
      (s.sessions.Validate value env.validateNow).2 = true →
      ∀ next : HandlerFunc, requireAuth next env s r = next env s r) ∧
    ((∃ next next' : HandlerFunc, requireAuth next env s r ≠ requireAuth next' env s r) →
      ∃ value, r.Cookie sessionCookieName = some value ∧
        (s.sessions.Validate value env.validateNow).2 = true) ∧
    (∀ route ∈ registerRoutes,
      route.pattern ∈ ["POST /logout", "GET /admin", "POST /admin", "POST /admin/preview",
        "GET /admin/library", "GET /{slug}/edit", "POST /{slug}/edit", "POST /{slug}/delete"] →
      route.auth = true) := by
  have hfail : (r.Cookie sessionCookieName = none ∨
        ∃ value, r.Cookie sessionCookieName = some value ∧
          (s.sessions.Validate value env.validateNow).2 = false) →
      ∀ next : HandlerFunc,
        requireAuth next env s r =
          ((authenticated env s r).1,
            Redirect ("/login?next=" ++ QueryEscape r.URL.RequestURI) 302) ∧
        (authenticated env s r).1.cfg = s.cfg ∧ (authenticated env s r).1.store = s.store := by
    rintro (hc | ⟨value, hc, hv⟩) next
    · simp [requireAuth, authenticated, hc]
    · cases hv' : s.sessions.Validate value env.validateNow with
      | mk sessions ok =>
        rw [hv'] at hv
        simp only at hv
        subst hv
        simp [requireAuth, authenticated, hc, hv']
  have hok : ∀ value, r.Cookie sessionCookieName = some value →
      (s.sessions.Validate value env.validateNow).2 = true →
      ∀ next : HandlerFunc, requireAuth next env s r = next env s r := by
    intro value hc hv next
    have hst := Validate_true_state s.sessions value env.validateNow hv
    cases hv' : s.sessions.Validate value env.validateNow with
    | mk sessions ok =>
      rw [hv'] at hv hst
      simp only at hv hst
      subst hv; subst hst
      simp [requireAuth, authenticated, hc, hv']
  have hkinds : ∀ value, (value = "" ∨ s.sessions.get value = none ∨
        ∃ sess, s.sessions.get value = some sess ∧ sess.expires < env.validateNow) →
      (s.sessions.Validate value env.validateNow).2 = false := by
    intro value h
    unfold sessionStore.Validate
    by_cases h0 : value = ""
    · simp [h0]
    · rcases h with h | h | ⟨sess, h, hlt⟩
      · exact absurd h h0
      · simp [h0, h]
      · simp [h0, h, hlt]
  refine ⟨?_, hkinds, QueryUnescape_QueryEscape _, hok, ?_, by decide⟩
  · intro h next
    obtain ⟨h1, h2, h3⟩ := hfail h next
    rw [h1]
    exact ⟨rfl, h2, h3⟩
  · rintro ⟨next, next', hne⟩
    by_contra hcon
    apply hne
    have hf : r.Cookie sessionCookieName = none ∨
        ∃ value, r.Cookie sessionCookieName = some value ∧
          (s.sessions.Validate value env.validateNow).2 = false := by
      cases hc : r.Cookie sessionCookieName with
      | none => left; rfl
      | some value =>
        right
        refine ⟨value, rfl, ?_⟩
        cases hv : (s.sessions.Validate value env.validateNow).2 with
        | false => rfl
        | true => exact absurd ⟨value, hc, hv⟩ hcon
    rw [(hfail hf next).1, (hfail hf next').1]

/-- Witness for C15: a request for the library with a search term and without
cookie, on the route of `showLibrary`. -/
theorem requireAuth_spec_witness :
    (requireAuth showLibrary ⟨healthy, fun _ => none, none, 50, 100, 7, 7, fun _ => "", Char.toLower⟩ ⟨⟨":8080", "secret", "content"⟩, ⟨[]⟩, ⟨[]⟩⟩
        ⟨⟨"/admin/library", "q=alpha", false⟩, "", [("q", "alpha")], false, [], []⟩).2 =
      Redirect ("/login?next=" ++ QueryEscape "/admin/library?q=alpha") 302 ∧
    (requireAuth showLibrary ⟨healthy, fun _ => none, none, 50, 100, 7, 7, fun _ => "", Char.toLower⟩ ⟨⟨":8080", "secret", "content"⟩, ⟨[]⟩, ⟨[]⟩⟩
        ⟨⟨"/admin/library", "q=alpha", false⟩, "", [("q", "alpha")], false, [], []⟩).1.cfg =
      ⟨":8080", "secret", "content"⟩ ∧
    (requireAuth showLibrary ⟨healthy, fun _ => none, none, 50, 100, 7, 7, fun _ => "", Char.toLower⟩ ⟨⟨":8080", "secret", "content"⟩, ⟨[]⟩, ⟨[]⟩⟩
        ⟨⟨"/admin/library", "q=alpha", false⟩, "", [("q", "alpha")], false, [], []⟩).1.store =
      ⟨[]⟩ :=
  (requireAuth_spec ⟨healthy, fun _ => none, none, 50, 100, 7, 7, fun _ => "", Char.toLower⟩ ⟨⟨":8080", "secret", "content"⟩, ⟨[]⟩, ⟨[]⟩⟩
    ⟨⟨"/admin/library", "q=alpha", false⟩, "", [("q", "alpha")], false, [], []⟩).1
    (Or.inl rfl) showLibrary

set_option maxRecDepth 100000 in
theorem escapeByte_chars : ∀ b : Fin 256, ∀ c ∈ escapeByte b.val,
    0x20 < c.toNat ∧ c.toNat < 0x7F ∧ c.toNat ≠ 35 ∧ c.toNat ≠ 63 := by
  decide

theorem QueryEscape_chars (s : String) : ∀ c ∈ (QueryEscape s).data,
    0x20 < c.toNat ∧ c.toNat < 0x7F ∧ c.toNat ≠ 35 ∧ c.toNat ≠ 63 := by
  intro c hc
  simp only [QueryEscape, List.mem_flatMap] at hc
  obtain ⟨ch, _, b, hb, hcb⟩ := hc
  exact escapeByte_chars ⟨b, utf8Bytes_lt ch b hb⟩ c hcb

/-- The redirect of `requireAuth` is sent as it is: for the target `/login?next=`
followed by a query-escaped text, `http.Redirect` writes the target itself as
`Location`. -/
theorem redirectLocation_login (u : String) :
    (Redirect ("/login?next=" ++ QueryEscape u) 302).Location =
      some ("/login?next=" ++ QueryEscape u) := by
  have hch := QueryEscape_chars u
  generalize QueryEscape u = q at hch
  obtain ⟨l⟩ := q
  simp only at hch
  have hdata : ("/login?next=" ++ String.mk l).data = "/login?next=".data ++ l := by
    simp [String.data_append]
  have htake : ("/login?next=" ++ String.mk l).data.takeWhile (fun c => decide (c.toNat ≠ 63)) =
      "/login".data := by
    rw [hdata]; rfl
  have hdrop : ("/login?next=" ++ String.mk l).data.dropWhile (fun c => decide (c.toNat ≠ 63)) =
      "?next=".data ++ l := by
    rw [hdata]; rfl
  have hall : ∀ c ∈ ("/login?next=" ++ String.mk l).data,
      0x20 ≤ c.toNat ∧ c.toNat < 0x7F ∧ c.toNat ≠ 35 := by
    intro c hc
    rw [hdata, List.mem_append] at hc
    rcases hc with hc | hc
    · revert c; decide
    · have := hch c hc; omega
  have hlocal : localTarget ("/login?next=" ++ String.mk l) = true := by
    simp only [localTarget, Bool.and_eq_true, Bool.not_eq_true', List.all_eq_true, htake]
    refine ⟨⟨⟨?_, ?_⟩, ?_⟩, by decide⟩
    · simp [HasPrefix, hdata]
    · simp [HasPrefix, hdata]
    · intro c hc
      have := hall c hc
      simp only [Bool.and_eq_true, decide_eq_true_eq, bne_iff_ne, ne_eq]
      omega
  have hclean : Redirect.clean ("/login?next=" ++ String.mk l) = "/login?next=" ++ String.mk l := by
    unfold Redirect.clean
    simp only [htake, hdrop]
    have h1 : Clean (String.mk "/login".data) = "/login" := by decide
    rw [h1]
    apply String.ext
    rw [hdata]
    rfl
  simp only [Response.Location, Redirect, Option.bind, redirectLocation, hlocal, if_true, hclean]
  rw [hexEscapeNonASCII_ascii]
  intro c hc
  have := hall c hc
  omega

end Minisnap
